import Mathlib

/-!
Task progress and time tracking.

A shallow embedding of the task document (`models/Task.js`), its virtuals and
pre-save hooks, of the request handlers of `controllers/progressController.js`
and `controllers/taskController.js` that mutate it, and of the heuristics
`estimateTimeRequired`, `generateTaskRecommendations` (`services/aiService.js`) and
`generateSmartSchedule` (`controllers/aiController.js`).

Modelling conventions

* Dates are integers (milliseconds since the epoch); an unset date is `none`.
* `progress` and session `duration` are integers; hour fields are rationals (a
  stored number is the rational it equals), and `/` on them is exact division.
* Where a result depends on how doubles round (`efficiency`, `generateSmartSchedule`)
  the operations on JavaScript numbers are a parameter `NumberOps`; `jsNumbers` gives
  them on `Float`, `exactNumbers` computes without rounding.
* Identifiers (`_id`, `assignedTo`, `req.user.id`) and `status` are strings.
* One request reads the clock once: every `new Date()` of a handler and of the
  hooks it triggers is the handler's `now` argument.
* `found` is what `Task.findById(id)` returned; `Outcome.doc` is what it would
  return after the request.
* Document fields that no handler below reads or writes (title, tags, ...) are
  left out; their schema validators are taken to pass.
-/

namespace TaskManager

/-! ## Data model (`models/Task.js`) -/

/-- One element of `timeTracking.sessions`. -/
structure Session where
  startTime : Int
  endTime : Option Int
  duration : Int
deriving DecidableEq

/-- One element of `subtasks`. -/
structure Subtask where
  _id : String
  completed : Bool
  completedAt : Option Int
  progress : Int
  estimatedHours : Rat
  actualHours : Rat
deriving DecidableEq

/-- The `timeTracking` sub-document. -/
structure TimeTracking where
  started : Bool
  startTime : Option Int
  sessions : List Session
deriving DecidableEq

/-- The task document. -/
structure Task where
  status : String
  completedAt : Option Int
  dueDate : Option Int
  assignedTo : String
  subtasks : List Subtask
  progress : Int
  estimatedHours : Rat
  actualHours : Rat
  timeTracking : TimeTracking
deriving DecidableEq

/-- The values allowed by the `enum` of `status`. -/
def statusEnum : List String := ["todo", "in-progress", "completed"]

/-- JavaScript `x || 0` on a number: `0` is the only falsy integer. -/
def orZero (x : Int) : Int := if x = 0 then 0 else x

/-- JavaScript `Math.round`: nearest integer, halves towards plus infinity. -/
def mathRound (x : Rat) : Int := Int.floor (x + 1 / 2)

/-! ## Virtuals -/

/-- Virtual `isOverdue`, with `new Date()` passed as `now`. -/
def isOverdue (t : Task) (now : Int) : Bool :=
  match t.dueDate with
  | none => false
  | some due => if t.status = "completed" then false else decide (now > due)

/-- The reducer of `completionPercentage` over the subtasks. -/
def subtaskProgressStep (sum : Int) (subtask : Subtask) : Int :=
  if subtask.completed then sum + 100 else sum + orZero subtask.progress

/-- Virtual `completionPercentage`. -/
def completionPercentage (t : Task) : Int :=
  if t.status = "completed" then 100
  else if t.progress > 0 then t.progress
  else if t.subtasks.length > 0 then
    let totalSubtaskProgress := t.subtasks.foldl subtaskProgressStep 0
    let avgSubtaskProgress : Rat := (totalSubtaskProgress : Rat) / (t.subtasks.length : Rat)
    mathRound avgSubtaskProgress
  else if t.status = "todo" then 0
  else if t.status = "in-progress" then 25
  else if t.status = "completed" then 100
  else 0

/-- The operations on JavaScript numbers (IEEE 754 doubles) that `efficiency` and
`generateSmartSchedule` use, taken as given. `F` is the type of the doubles; `ofRat` is the
double nearest to a rational (a stored number or a literal, hence that number itself);
`add`, `mul` and `div` are the operators `+`, `*` and `/`; `round` is `Math.round`; and
`timeClip x` is the time value of `new Date(x)`, the integral part of `x` in milliseconds,
or `none` for an Invalid Date. -/
structure NumberOps (F : Type) where
  ofRat : Rat → F
  add : F → F → F
  mul : F → F → F
  div : F → F → F
  round : F → F
  timeClip : F → Option Int

/-- Virtual `efficiency`; `none` is JavaScript `null`. The test `=== 0` is on the stored
numbers, the quotient and the product are the doubles' ones. -/
def efficiency {F : Type} (ops : NumberOps F) (t : Task) : Option F :=
  if t.estimatedHours = 0 ∨ t.actualHours = 0 then none
  else
    some (ops.round
      (ops.mul (ops.div (ops.ofRat t.estimatedHours) (ops.ofRat t.actualHours))
        (ops.ofRat 100)))

/-- The reducer `sum + (session.duration || 0)` used by `totalTimeSpent` and `stopTimeTracking`. -/
def durationStep (sum : Int) (session : Session) : Int := sum + orZero session.duration

/-- Sum of the session durations, `sessions.reduce(..., 0)`. -/
def sumDurations (sessions : List Session) : Int := sessions.foldl durationStep 0

/-- Virtual `totalTimeSpent`. -/
def totalTimeSpent (t : Task) : Rat :=
  if t.timeTracking.sessions.length = 0 then 0
  else
    let totalTime := sumDurations t.timeTracking.sessions
    ((mathRound ((totalTime : Rat) / (1000 * 60 * 60 * 100)) : Int) : Rat) / 100

/-! ## Saving -/

/-- The `min`/`max`/`enum` validators of a subtask. -/
def validSubtask (s : Subtask) : Bool :=
  decide (0 ≤ s.progress) && decide (s.progress ≤ 100)
    && decide (0 ≤ s.estimatedHours) && decide (0 ≤ s.actualHours)

/-- Document validation run by `save()` before the hooks: the `enum` of `status` and the
`min`/`max` bounds of the numeric paths. -/
def validate (t : Task) : Bool :=
  statusEnum.contains t.status
    && decide (0 ≤ t.progress) && decide (t.progress ≤ 100)
    && decide (0 ≤ t.estimatedHours) && decide (0 ≤ t.actualHours)
    && t.subtasks.all validSubtask

/-- First `pre('save')` hook. `isModified('status')` holds when the value differs from the
one loaded (`orig`). -/
def preSaveCompletedAt (orig cur : Task) (now : Int) : Task :=
  if cur.status ≠ orig.status then
    if cur.status = "completed" ∧ cur.completedAt = none then
      { cur with completedAt := some now }
    else if cur.status ≠ "completed" then
      { cur with completedAt := none }
    else cur
  else cur

/-- Body of the `forEach` of the second `pre('save')` hook. -/
def preSaveSubtask (now : Int) (subtask : Subtask) : Subtask :=
  if subtask.completed = true ∧ subtask.completedAt = none then
    { subtask with completedAt := some now }
  else if subtask.completed = false then
    { subtask with completedAt := none }
  else subtask

/-- Second `pre('save')` hook. `isModified('subtasks')` holds when some subtask field
differs from the one loaded. -/
def preSaveSubtasks (orig cur : Task) (now : Int) : Task :=
  if cur.subtasks ≠ orig.subtasks then
    { cur with subtasks := cur.subtasks.map (preSaveSubtask now) }
  else cur

/-- Method `task.save()`: validation, then the two hooks in the order they are registered.
`none` is a thrown `ValidationError`, in which case nothing is written. -/
def save (orig cur : Task) (now : Int) : Option Task :=
  if validate cur then
    some (preSaveSubtasks orig (preSaveCompletedAt orig cur now) now)
  else none

/-! ## Request handlers -/

/-- What a handler sends back: `res.json` with status 200, `res.status(code).json` with a
message, or the `ValidationError` thrown by `save()` and left to the error middleware. -/
inductive Response where
  | ok (message : String)
  | fail (code : Nat) (message : String)
  | validationError
deriving DecidableEq

/-- The response of a request together with the document as stored afterwards. -/
structure Outcome where
  response : Response
  doc : Option Task
deriving DecidableEq

/-- The status assignment of `updateTaskProgress` ("Auto-update status based on progress"). -/
def autoStatus (task : Task) (progress : Int) : Task :=
  if progress = 0 then { task with status := "todo" }
  else if progress = 100 then { task with status := "completed" }
  else if progress > 0 ∧ task.status = "todo" then { task with status := "in-progress" }
  else task

/-- Handler `updateTaskProgress` (`PUT /api/tasks/:id/progress`). -/
def updateTaskProgress (found : Option Task) (userId : String) (progress : Int) (now : Int) :
    Outcome :=
  if progress < 0 ∨ progress > 100 then
    ⟨.fail 400 "Progress must be between 0 and 100", found⟩
  else
    match found with
    | none => ⟨.fail 404 "Task not found", none⟩
    | some task =>
      if task.assignedTo ≠ userId then
        ⟨.fail 403 "Not authorized to update this task", some task⟩
      else
        let task1 := autoStatus { task with progress := progress } progress
        match save task task1 now with
        | some saved => ⟨.ok "Progress updated successfully", some saved⟩
        | none => ⟨.validationError, some task⟩

/-- The assignments `updateSubtaskProgress` makes to the subtask it found. -/
def setSubtaskProgress (subtask : Subtask) (progress : Int) (now : Int) : Subtask :=
  let subtask1 := { subtask with progress := progress }
  if progress = 100 then
    { subtask1 with completed := true, completedAt := some now }
  else if progress < 100 ∧ subtask1.completed = true then
    { subtask1 with completed := false, completedAt := none }
  else subtask1

/-- Lookup `subtasks.id(subtaskId)`: the first subtask with that `_id`. -/
def subtaskById (subtasks : List Subtask) (subtaskId : String) : Option Subtask :=
  subtasks.find? (fun s => s._id == subtaskId)

/-- In-place mutation of the subtask returned by `subtasks.id(subtaskId)`. -/
def modifySubtask (subtasks : List Subtask) (subtaskId : String) (f : Subtask → Subtask) :
    List Subtask :=
  match subtasks with
  | [] => []
  | s :: rest =>
    if s._id == subtaskId then f s :: rest else s :: modifySubtask rest subtaskId f

/-- Handler `updateSubtaskProgress` (`PUT /api/tasks/:id/subtasks/:subtaskId/progress`). -/
def updateSubtaskProgress (found : Option Task) (userId subtaskId : String) (progress : Int)
    (now : Int) : Outcome :=
  if progress < 0 ∨ progress > 100 then
    ⟨.fail 400 "Progress must be between 0 and 100", found⟩
  else
    match found with
    | none => ⟨.fail 404 "Task not found", none⟩
    | some task =>
      if task.assignedTo ≠ userId then
        ⟨.fail 403 "Not authorized to update this task", some task⟩
      else
        match subtaskById task.subtasks subtaskId with
        | none => ⟨.fail 404 "Subtask not found", some task⟩
        | some _ =>
          let task1 := { task with
            subtasks := modifySubtask task.subtasks subtaskId
              (fun s => setSubtaskProgress s progress now) }
          match save task task1 now with
          | some saved => ⟨.ok "Subtask progress updated successfully", some saved⟩
          | none => ⟨.validationError, some task⟩

/-- The assignments of `startTimeTracking` ("Start time tracking", "Create new session",
"Update task status if it's still 'todo'"). The pushed session gets the schema defaults
`endTime: null`, `duration: 0`. -/
def startSession (task : Task) (now : Int) : Task :=
  let task1 := { task with timeTracking :=
    { started := true
      startTime := some now
      sessions := task.timeTracking.sessions ++ [{ startTime := now, endTime := none, duration := 0 }] } }
  if task1.status = "todo" then { task1 with status := "in-progress" } else task1

/-- Handler `startTimeTracking` (`POST /api/tasks/:id/time/start`). -/
def startTimeTracking (found : Option Task) (userId : String) (now : Int) : Outcome :=
  match found with
  | none => ⟨.fail 404 "Task not found", none⟩
  | some task =>
    if task.assignedTo ≠ userId then
      ⟨.fail 403 "Not authorized to track time for this task", some task⟩
    else if task.timeTracking.started = true then
      ⟨.fail 400 "Time tracking already started", some task⟩
    else
      match save task (startSession task now) now with
      | some saved => ⟨.ok "Time tracking started", some saved⟩
      | none => ⟨.validationError, some task⟩

/-- The update of the latest session in `stopTimeTracking`: the last element of the list,
when it exists and has no `endTime`, gets `endTime` and `duration`. -/
def closeLatestSession (sessions : List Session) (endTime : Int) : List Session :=
  match sessions.getLast? with
  | none => sessions
  | some latestSession =>
    if latestSession.endTime = none then
      sessions.dropLast ++
        [{ latestSession with endTime := some endTime, duration := endTime - latestSession.startTime }]
    else sessions

/-- The assignments of `stopTimeTracking` ("Stop time tracking", "Update the latest session",
"Calculate total actual hours"). -/
def stopSession (task : Task) (now : Int) : Task :=
  let sessions := closeLatestSession task.timeTracking.sessions now
  let totalDuration := sumDurations sessions
  { task with
    timeTracking := { task.timeTracking with started := false, sessions := sessions }
    actualHours := (totalDuration : Rat) / (1000 * 60 * 60) }

/-- Handler `stopTimeTracking` (`POST /api/tasks/:id/time/stop`). -/
def stopTimeTracking (found : Option Task) (userId : String) (now : Int) : Outcome :=
  match found with
  | none => ⟨.fail 404 "Task not found", none⟩
  | some task =>
    if task.assignedTo ≠ userId then
      ⟨.fail 403 "Not authorized to track time for this task", some task⟩
    else if task.timeTracking.started = false then
      ⟨.fail 400 "Time tracking not started", some task⟩
    else
      match save task (stopSession task now) now with
      | some saved => ⟨.ok "Time tracking stopped", some saved⟩
      | none => ⟨.validationError, some task⟩

/-- One element of the request field `subtaskEstimates`. -/
structure SubtaskEstimate where
  subtaskId : String
  estimatedHours : Rat
deriving DecidableEq

/-- Body of the `forEach` over `subtaskEstimates`. -/
def applyEstimate (subtasks : List Subtask) (estimate : SubtaskEstimate) : List Subtask :=
  match subtaskById subtasks estimate.subtaskId with
  | none => subtasks
  | some _ =>
    modifySubtask subtasks estimate.subtaskId
      (fun s => { s with estimatedHours := estimate.estimatedHours })

/-- Handler `updateTimeEstimates` (`PUT /api/tasks/:id/estimates`). An `undefined`
`estimatedHours`, and a `subtaskEstimates` that is missing or not an array, are `none`. -/
def updateTimeEstimates (found : Option Task) (userId : String) (estimatedHours : Option Rat)
    (subtaskEstimates : Option (List SubtaskEstimate)) (now : Int) : Outcome :=
  match found with
  | none => ⟨.fail 404 "Task not found", none⟩
  | some task =>
    if task.assignedTo ≠ userId then
      ⟨.fail 403 "Not authorized to update this task", some task⟩
    else
      let task1 :=
        match estimatedHours with
        | some h => { task with estimatedHours := h }
        | none => task
      let task2 :=
        match subtaskEstimates with
        | some estimates => { task1 with subtasks := estimates.foldl applyEstimate task1.subtasks }
        | none => task1
      match save task task2 now with
      | some saved => ⟨.ok "Time estimates updated successfully", some saved⟩
      | none => ⟨.validationError, some task⟩

/-- Handler `toggleTaskCompletion` of `taskController.js` (`PATCH /tasks/:id/toggle`).
`validId` is `mongoose.Types.ObjectId.isValid(id)`. The write is
`findByIdAndUpdate` with the update `status: newStatus`: it sets `status` alone and runs no
`save` middleware. -/
def toggleTaskCompletion (validId : Bool) (found : Option Task) (userId : String) : Outcome :=
  if validId = false then ⟨.fail 400 "Invalid task ID", found⟩
  else
    match found with
    | none => ⟨.fail 404 "Task not found", none⟩
    | some task =>
      if task.assignedTo ≠ userId then ⟨.fail 403 "Access denied", some task⟩
      else
        let newStatus := if task.status = "completed" then "todo" else "completed"
        ⟨.ok ("Task marked as " ++ newStatus), some { task with status := newStatus }⟩

/-! ## Sequences of requests -/

/-- A request to one of the five handlers of `progressController.js` that write a task. -/
inductive Op where
  | setTaskProgress (userId : String) (progress : Int) (now : Int)
  | setSubtaskProgress (userId subtaskId : String) (progress : Int) (now : Int)
  | startTimeTracking (userId : String) (now : Int)
  | stopTimeTracking (userId : String) (now : Int)
  | updateTimeEstimates (userId : String) (estimatedHours : Option Rat)
      (subtaskEstimates : Option (List SubtaskEstimate)) (now : Int)

/-- Serve one request against the stored document. -/
def Op.run (op : Op) (doc : Option Task) : Outcome :=
  match op with
  | .setTaskProgress u p now => updateTaskProgress doc u p now
  | .setSubtaskProgress u sid p now => updateSubtaskProgress doc u sid p now
  | .startTimeTracking u now => TaskManager.startTimeTracking doc u now
  | .stopTimeTracking u now => TaskManager.stopTimeTracking doc u now
  | .updateTimeEstimates u h es now => TaskManager.updateTimeEstimates doc u h es now

/-- The stored document after serving the requests one after the other. -/
def runAll (ops : List Op) (doc : Option Task) : Option Task :=
  ops.foldl (fun d op => (op.run d).doc) doc

/-- A task as `Task.create` stores it when only the required fields are given: the schema
defaults, with the subtasks passed at creation. -/
def newTask (owner : String) (subtasks : List Subtask) : Task :=
  { status := "todo"
    completedAt := none
    dueDate := none
    assignedTo := owner
    subtasks := subtasks
    progress := 0
    estimatedHours := 0
    actualHours := 0
    timeTracking := { started := false, startTime := none, sessions := [] } }

/-! ## Suggestion heuristics (`services/aiService.js`, `controllers/aiController.js`) -/

/-- The table `timeKeywords` of `estimateTimeRequired`, in insertion order. -/
def timeKeywords : List (String × Rat) :=
  [("quick", 1 / 4), ("fast", 1 / 2), ("brief", 1 / 2), ("short", 1 / 2), ("meeting", 1),
   ("call", 1 / 2), ("email", 1 / 4), ("review", 1), ("read", 1), ("write", 2),
   ("research", 3), ("project", 8), ("develop", 6), ("design", 4), ("plan", 2)]

/-- JavaScript `text.includes(keyword)`: the keyword occurs as a contiguous run. -/
def includes (text keyword : String) : Bool := decide (keyword.data <:+: text.data)

/-- JavaScript `description.split(' ').length`: one piece more than there are spaces. -/
def wordCount (description : String) : Nat := description.data.count ' ' + 1

/-- Body of the loop of `estimateTimeRequired` over the entries of `timeKeywords`. -/
def keywordStep (text : String) (estimatedHours : Rat) (entry : String × Rat) : Rat :=
  if includes text entry.1 then max estimatedHours entry.2 else estimatedHours

/-- Method `estimateTimeRequired` of `aiService.js`. `toLowerCase` is the string method of
that name; hours are exact rationals (0.7 is 7/10). -/
def estimateTimeRequired (toLowerCase : String → String) (title description : String) : Rat :=
  let text := toLowerCase (title ++ " " ++ description)
  let estimatedHours := timeKeywords.foldl (keywordStep text) 1
  let estimatedHours :=
    if wordCount description > 50 then estimatedHours * (3 / 2)
    else if wordCount description < 10 then estimatedHours * (7 / 10)
    else estimatedHours
  ((mathRound (estimatedHours * 4) : Int) : Rat) / 4

/-- The unrounded estimate in the specification's words: the largest of 1 and the hours of
every time keyword contained in the lower-cased text, times 1.5 for a description of more
than 50 space-separated words, 0.7 for fewer than 10, and 1 otherwise. -/
def unroundedEstimate (toLowerCase : String → String) (title description : String) : Rat :=
  let text := toLowerCase (title ++ " " ++ description)
  let contained := (timeKeywords.filter (fun entry => includes text entry.1)).map (fun e => e.2)
  contained.foldr max 1 *
    (if wordCount description > 50 then 3 / 2
     else if wordCount description < 10 then 7 / 10 else 1)

/-- One recommendation of `generateTaskRecommendations`. -/
structure Recommendation where
  title : String
  description : String
  category : String
  priority : String
  estimatedHours : Rat
  reason : String
deriving DecidableEq

/-- The array `recommendations` of `generateTaskRecommendations` before the final `slice`.
`dayOfWeek` and `hour` are what `new Date()` gives for the weekday name and `getHours()`;
`now` is the instant at which the virtual `isOverdue` of the documents is read. -/
def recommendationsBeforeSlice (userTasks : List Task) (dayOfWeek : String) (hour : Nat)
    (now : Int) : List Recommendation :=
  let r0 : List Recommendation := []
  let r1 :=
    if hour ≥ 6 ∧ hour ≤ 10 then
      r0 ++ [{ title := "Daily Planning Session"
               description := "Review today\x27s priorities and plan your schedule"
               category := "personal"
               priority := "medium"
               estimatedHours := 1 / 4
               reason := "Morning planning helps set a productive tone for the day" }]
    else r0
  let r2 :=
    if hour ≥ 14 ∧ hour ≤ 16 then
      r1 ++ [{ title := "Take a Break"
               description := "Step away from work for 15 minutes to recharge"
               category := "personal"
               priority := "low"
               estimatedHours := 1 / 4
               reason := "Afternoon breaks improve focus and productivity" }]
    else r1
  let r3 :=
    if dayOfWeek = "Saturday" ∨ dayOfWeek = "Sunday" then
      r2 ++ [{ title := "Weekly Review"
               description := "Review completed tasks and plan for next week"
               category := "personal"
               priority := "medium"
               estimatedHours := 1 / 2
               reason := "Weekly reviews help maintain long-term productivity" }]
    else r2
  let overdueTasks :=
    userTasks.filter (fun task => isOverdue task now && decide (task.status ≠ "completed"))
  if overdueTasks.length > 0 then
    r3 ++ [{ title := "Address Overdue Tasks"
             description := "You have " ++ toString overdueTasks.length ++
               " overdue task(s) that need attention"
             category := "work"
             priority := "urgent"
             estimatedHours := 1
             reason := "Clearing overdue tasks reduces stress and improves workflow" }]
  else r3

/-- Method `generateTaskRecommendations` of `aiService.js`: `recommendations.slice(0, 3)`. -/
def generateTaskRecommendations (userTasks : List Task) (dayOfWeek : String) (hour : Nat)
    (now : Int) : List Recommendation :=
  (recommendationsBeforeSlice userTasks dayOfWeek hour now).take 3

/-- JavaScript `x || 1` on a number: `0` is the only falsy rational. -/
def orOne (x : Rat) : Rat := if x = 0 then 1 else x

/-- The millisecond count `new Date(ms)` keeps: the integral part, towards zero. -/
def timeClip (ms : Rat) : Int := if 0 ≤ ms then Int.floor ms else Int.ceil ms

/-- The operations on the doubles of the runtime. `ofRat` is one correctly rounded division,
the nearest double while numerator and denominator are below 2 ^ 53; `Math.round` goes up at
a tie; `new Date(x)` is invalid for a value that is not finite or lies beyond 8.64e15, and
drops the fraction otherwise. -/
def jsNumbers : NumberOps Float where
  ofRat q := Float.ofInt q.num / Float.ofNat q.den
  add x y := x + y
  mul x y := x * y
  div x y := x / y
  round x := if x - x.floor ≥ 0.5 then x.floor + 1 else x.floor
  timeClip x :=
    if x.isFinite && decide (x.abs ≤ 8640000000000000) then
      if x ≥ 0 then some (Int.ofNat x.floor.toUInt64.toNat)
      else some (- Int.ofNat (-x).floor.toUInt64.toNat)
    else none

/-- Arithmetic without rounding, on the rationals: what the operations on doubles give
wherever the exact result is a double, as it is in the examples below. -/
def exactNumbers : NumberOps Rat where
  ofRat q := q
  add x y := x + y
  mul x y := x * y
  div x y := x / y
  round x := ((mathRound x : Int) : Rat)
  timeClip x := some (timeClip x)

/-- One element of `schedule` in `generateSmartSchedule`: `estimatedHours` is the one of the
entry's `task` record, `duration` is the number of minutes. -/
structure ScheduleEntry (F : Type) where
  estimatedHours : Rat
  startTime : Int
  endTime : Int
  duration : F

/-- The `for` loop of `generateSmartSchedule` over `sortedTasks`, from `currentTime` on. The
comparison `taskEndTime <= endTime` is false for an Invalid Date; the sum of an instant and
the 15 minutes is a sum of whole numbers. -/
def scheduleLoop {F : Type} (ops : NumberOps F) (endTime : Int) :
    List Task → Int → List (ScheduleEntry F)
  | [], _ => []
  | task :: rest, currentTime =>
    let taskDuration := ops.mul (ops.ofRat (orOne task.estimatedHours)) (ops.ofRat 60)
    let taskEndTime :=
      ops.timeClip (ops.add (ops.ofRat currentTime) (ops.mul taskDuration (ops.ofRat 60000)))
    match taskEndTime with
    | some taskEndTime =>
      if taskEndTime ≤ endTime then
        let entry : ScheduleEntry F :=
          { estimatedHours := orOne task.estimatedHours
            startTime := currentTime
            endTime := taskEndTime
            duration := taskDuration }
        let currentTime2 := taskEndTime + 15 * 60000
        if currentTime2 ≥ endTime then [entry]
        else entry :: scheduleLoop ops endTime rest currentTime2
      else if currentTime ≥ endTime then []
      else scheduleLoop ops endTime rest currentTime
    | none =>
      if currentTime ≥ endTime then []
      else scheduleLoop ops endTime rest currentTime

/-- The `schedule` of handler `generateSmartSchedule` (`POST /api/ai/schedule`). `nineAM` is
`new Date(date)` after `setHours(9, 0, 0, 0)`, `workingHours` a whole number of hours with no
clock change before `endTime`, and `sortedTasks` the pending tasks in the order the sort
left them. -/
def generateSmartSchedule {F : Type} (ops : NumberOps F) (nineAM : Int) (workingHours : Int)
    (sortedTasks : List Task) : List (ScheduleEntry F) :=
  let endTime := nineAM + workingHours * 3600000
  scheduleLoop ops endTime sortedTasks nineAM

/-- A request succeeded when the handler answered with `res.json` (status 200). -/
def Response.isOk : Response → Bool
  | .ok _ => true
  | _ => false

/-- The completion invariant of a task: `status` is `completed` exactly when `completedAt`
is set. -/
def CompletionInv (t : Task) : Prop := t.status = "completed" ↔ t.completedAt ≠ none

instance (t : Task) : Decidable (CompletionInv t) := by
  unfold CompletionInv; infer_instance

/-- What a subtask contributes to the average, in the specification's words: 100 if it is
completed, else its own progress. -/
def subtaskContribution (s : Subtask) : Int := if s.completed then 100 else s.progress

/-- The average of the contributions over all subtasks, in the specification's words. -/
def subtaskAverage (subtasks : List Subtask) : Rat :=
  (((subtasks.map subtaskContribution).sum : Int) : Rat) / (subtasks.length : Rat)

/-- The subtask completion invariant: `completed` is true exactly when `completedAt` is set. -/
def SubtaskInv (s : Subtask) : Prop := s.completed = true ↔ s.completedAt ≠ none

instance (s : Subtask) : Decidable (SubtaskInv s) := by
  unfold SubtaskInv; infer_instance

/-- What a request leaves of a subtask it does not target: every field but `completedAt`,
and `completedAt` too when it agreed with `completed`. -/
def OtherKept (x y : Subtask) : Prop :=
  y._id = x._id ∧ y.completed = x.completed ∧ y.progress = x.progress ∧
    y.estimatedHours = x.estimatedHours ∧ y.actualHours = x.actualHours ∧
    (SubtaskInv x → y = x)

/-- Handler `createTask` of `taskController.js`, for the fields of the model and a request
whose title passes the checks: the document `Task.create` stores. Each element of `subtasks`
pairs the `_id` the store gives the new subtask with the request's `completed || false`; the
other paths get the schema defaults. On a new document the paths that were passed are the
modified ones: `status` is not passed, `subtasks` is when the request has an array, so the
second hook runs over them. -/
def createTask (userId : String) (assignedTo : Option String) (dueDate : Option Int)
    (subtasks : Option (List (String × Bool))) (now : Int) : Task :=
  let taskData : Task := { newTask (assignedTo.getD userId) [] with dueDate := dueDate }
  match subtasks with
  | none => taskData
  | some l =>
    let docs : List Subtask := l.map (fun x =>
      { _id := x.1, completed := x.2, completedAt := none, progress := 0,
        estimatedHours := 0, actualHours := 0 })
    { taskData with subtasks := docs.map (preSaveSubtask now) }

/-- The time-tracking invariant the requests carry along: while tracking, the latest session
is open and the ones before it are closed; while not tracking, every session is closed. -/
def TrackingInv (tt : TimeTracking) : Prop :=
  (tt.started = true →
      ∃ init last, tt.sessions = init ++ [last] ∧ last.endTime = none ∧
        ∀ s ∈ init, s.endTime ≠ none) ∧
    (tt.started = false → ∀ s ∈ tt.sessions, s.endTime ≠ none)

/-- The number of open sessions: those without `endTime`. -/
def openSessions (sessions : List Session) : Nat :=
  sessions.countP (fun s => s.endTime.isNone)

/-- The subtasks after the `forEach` of `updateTimeEstimates` over `subtaskEstimates`: the
entries applied in order, or the subtasks as they were when the field is no array. -/
def estimatedSubtasks (subtasks : List Subtask) (es : Option (List SubtaskEstimate)) :
    List Subtask :=
  match es with
  | some estimates => estimates.foldl applyEstimate subtasks
  | none => subtasks

/-! ## Lemmas on saving -/

theorem orZero_eq (x : Int) : orZero x = x := by
  unfold orZero; split <;> simp_all

theorem preSaveSubtasks_status (orig cur : Task) (now : Int) :
    (preSaveSubtasks orig cur now).status = cur.status := by
  unfold preSaveSubtasks; split <;> rfl

theorem preSaveSubtasks_completedAt (orig cur : Task) (now : Int) :
    (preSaveSubtasks orig cur now).completedAt = cur.completedAt := by
  unfold preSaveSubtasks; split <;> rfl

theorem preSaveCompletedAt_status (orig cur : Task) (now : Int) :
    (preSaveCompletedAt orig cur now).status = cur.status := by
  unfold preSaveCompletedAt; split_ifs <;> rfl

theorem save_status {orig cur t : Task} {now : Int} (h : save orig cur now = some t) :
    t.status = cur.status := by
  unfold save at h
  split at h
  · cases h
    rw [preSaveSubtasks_status, preSaveCompletedAt_status]
  · cases h

theorem save_completedAt {orig cur t : Task} {now : Int} (h : save orig cur now = some t) :
    t.completedAt = (preSaveCompletedAt orig cur now).completedAt := by
  unfold save at h
  split at h
  · cases h
    rw [preSaveSubtasks_completedAt]
  · cases h

/-- The first hook re-establishes the invariant when the handler left `completedAt` alone. -/
theorem preSaveCompletedAt_inv {orig cur : Task} (now : Int) (hinv : CompletionInv orig)
    (hc : cur.completedAt = orig.completedAt) :
    CompletionInv (preSaveCompletedAt orig cur now) := by
  unfold CompletionInv at *
  unfold preSaveCompletedAt
  split_ifs with h1 h2 h3
  · simp [h2.1]
  · simp [h3]
  · have h4 : cur.status = "completed" := not_not.mp h3
    have h5 : cur.completedAt ≠ none := fun h => h2 ⟨h4, h⟩
    simp [h4, h5]
  · have h4 : cur.status = orig.status := not_not.mp h1
    rw [h4, hc]; exact hinv

theorem save_inv {orig cur t : Task} {now : Int} (hinv : CompletionInv orig)
    (hc : cur.completedAt = orig.completedAt) (h : save orig cur now = some t) :
    CompletionInv t := by
  have h1 := preSaveCompletedAt_inv now hinv hc
  unfold CompletionInv at *
  rw [save_status h, save_completedAt h, ← preSaveCompletedAt_status orig cur now]
  exact h1

theorem autoStatus_completedAt (task : Task) (p : Int) :
    (autoStatus task p).completedAt = task.completedAt := by
  unfold autoStatus; split_ifs <;> rfl

theorem startSession_completedAt (task : Task) (now : Int) :
    (startSession task now).completedAt = task.completedAt := by
  simp only [startSession]; split_ifs <;> rfl

/-- Each of the five handlers keeps the completion invariant of the stored document. -/
theorem Op.run_inv (op : Op) (doc : Option Task)
    (hinv : ∀ t, doc = some t → CompletionInv t) :
    ∀ t, (op.run doc).doc = some t → CompletionInv t := by
  intro t ht
  cases doc with
  | none =>
    cases op <;>
      simp only [Op.run, updateTaskProgress, updateSubtaskProgress,
        TaskManager.startTimeTracking, TaskManager.stopTimeTracking,
        TaskManager.updateTimeEstimates] at ht <;>
      (try split at ht) <;> simp at ht
  | some t0 =>
    have h0 : CompletionInv t0 := hinv t0 rfl
    cases op with
    | setTaskProgress u p now =>
      simp only [Op.run, updateTaskProgress] at ht
      split_ifs at ht with h1 h2
      · cases ht; exact h0
      · cases ht; exact h0
      · split at ht
        · rename_i saved hs
          cases ht
          exact save_inv h0 (by rw [autoStatus_completedAt]) hs
        · cases ht; exact h0
    | setSubtaskProgress u sid p now =>
      simp only [Op.run, updateSubtaskProgress] at ht
      split_ifs at ht with h1 h2
      · cases ht; exact h0
      · cases ht; exact h0
      · split at ht
        · cases ht; exact h0
        · split at ht
          · rename_i saved hs
            cases ht
            exact save_inv h0 (by rfl) hs
          · cases ht; exact h0
    | startTimeTracking u now =>
      simp only [Op.run, TaskManager.startTimeTracking] at ht
      split_ifs at ht with h1 h2
      · cases ht; exact h0
      · cases ht; exact h0
      · split at ht
        · rename_i saved hs
          cases ht
          exact save_inv h0 (startSession_completedAt t0 now) hs
        · cases ht; exact h0
    | stopTimeTracking u now =>
      simp only [Op.run, TaskManager.stopTimeTracking] at ht
      split_ifs at ht with h1 h2
      · cases ht; exact h0
      · cases ht; exact h0
      · split at ht
        · rename_i saved hs
          cases ht
          exact save_inv h0 (by rfl) hs
        · cases ht; exact h0
    | updateTimeEstimates u h es now =>
      simp only [Op.run, TaskManager.updateTimeEstimates] at ht
      split_ifs at ht with h1
      · cases ht; exact h0
      · split at ht
        · rename_i saved hs
          cases ht
          refine save_inv h0 ?_ hs
          cases h <;> cases es <;> rfl
        · cases ht; exact h0

theorem runAll_inv (ops : List Op) (doc : Option Task)
    (hinv : ∀ t, doc = some t → CompletionInv t) :
    ∀ t, runAll ops doc = some t → CompletionInv t := by
  induction ops generalizing doc with
  | nil => simpa [runAll] using hinv
  | cons op rest ih =>
    intro t ht
    have hstep : runAll (op :: rest) doc = runAll rest (op.run doc).doc := by
      simp [runAll]
    rw [hstep] at ht
    exact ih _ (Op.run_inv op doc hinv) t ht

theorem Op.run_some (op : Op) (t0 : Task) : ∃ t, (op.run (some t0)).doc = some t := by
  cases op <;>
    simp only [Op.run, updateTaskProgress, updateSubtaskProgress,
      TaskManager.startTimeTracking, TaskManager.stopTimeTracking,
      TaskManager.updateTimeEstimates] <;>
    repeat (first | exact ⟨_, rfl⟩ | split)

theorem runAll_some (ops : List Op) (t0 : Task) : ∃ t, runAll ops (some t0) = some t := by
  induction ops generalizing t0 with
  | nil => exact ⟨t0, rfl⟩
  | cons op rest ih =>
    obtain ⟨t1, h1⟩ := Op.run_some op t0
    have hstep : runAll (op :: rest) (some t0) = runAll rest (op.run (some t0)).doc := by
      simp [runAll]
    rw [hstep, h1]
    exact ih t1

theorem validate_autoStatus {task : Task} {p : Int} (h0 : 0 ≤ p) (h100 : p ≤ 100)
    (hv : validate task = true) :
    validate (autoStatus { task with progress := p } p) = true := by
  simp only [validate, statusEnum, Bool.and_eq_true, decide_eq_true_eq] at hv ⊢
  obtain ⟨⟨⟨⟨⟨hs, _⟩, _⟩, he⟩, ha⟩, hsub⟩ := hv
  unfold autoStatus
  split_ifs <;> simp_all

theorem autoStatus_status (task : Task) (p : Int) (h0 : 0 ≤ p) :
    (autoStatus task p).status =
      if p = 0 then "todo" else if p = 100 then "completed"
      else if task.status = "todo" then "in-progress" else task.status := by
  unfold autoStatus
  split_ifs <;> first | rfl | omega | (simp_all; done) | (simp_all; omega)

theorem autoStatus_progress (task : Task) (p : Int) :
    (autoStatus task p).progress = task.progress := by
  unfold autoStatus; split_ifs <;> rfl

theorem save_progress {orig cur t : Task} {now : Int} (h : save orig cur now = some t) :
    t.progress = cur.progress := by
  unfold save at h
  split at h
  · cases h
    unfold preSaveSubtasks preSaveCompletedAt
    split_ifs <;> rfl
  · cases h

theorem save_isSome {orig cur : Task} {now : Int} (hv : validate cur = true) :
    ∃ t, save orig cur now = some t := by
  unfold save; rw [if_pos hv]; exact ⟨_, rfl⟩

/-- What `updateTaskProgress` does for the owner with a progress inside the range. -/
theorem updateTaskProgress_owner (task : Task) (p now : Int) (h0 : 0 ≤ p) (h100 : p ≤ 100) :
    updateTaskProgress (some task) task.assignedTo p now =
      match save task (autoStatus { task with progress := p } p) now with
      | some saved => ⟨.ok "Progress updated successfully", some saved⟩
      | none => ⟨.validationError, some task⟩ := by
  unfold updateTaskProgress
  rw [if_neg (by omega)]
  simp

theorem save_timeTracking {orig cur t : Task} {now : Int} (h : save orig cur now = some t) :
    t.timeTracking = cur.timeTracking := by
  unfold save at h
  split at h
  · cases h
    unfold preSaveSubtasks preSaveCompletedAt
    split_ifs <;> rfl
  · cases h

theorem save_actualHours {orig cur t : Task} {now : Int} (h : save orig cur now = some t) :
    t.actualHours = cur.actualHours := by
  unfold save at h
  split at h
  · cases h
    unfold preSaveSubtasks preSaveCompletedAt
    split_ifs <;> rfl
  · cases h

theorem save_assignedTo {orig cur t : Task} {now : Int} (h : save orig cur now = some t) :
    t.assignedTo = cur.assignedTo := by
  unfold save at h
  split at h
  · cases h
    unfold preSaveSubtasks preSaveCompletedAt
    split_ifs <;> rfl
  · cases h

theorem validSubtask_preSaveSubtask (now : Int) (s : Subtask) :
    validSubtask (preSaveSubtask now s) = validSubtask s := by
  unfold preSaveSubtask validSubtask
  split_ifs <;> rfl

/-- A document that was saved passes the validators. -/
theorem save_validate {orig cur t : Task} {now : Int} (h : save orig cur now = some t) :
    validate t = true := by
  unfold save at h
  split at h
  · rename_i hv
    cases h
    have hall : ∀ l : List Subtask,
        (l.map (preSaveSubtask now)).all validSubtask = l.all validSubtask := by
      intro l
      induction l with
      | nil => rfl
      | cons a l ih => simp only [List.map_cons, List.all_cons, validSubtask_preSaveSubtask, ih]
    unfold preSaveSubtasks preSaveCompletedAt
    split_ifs <;> simp only [validate, hall] at hv ⊢ <;> exact hv
  · cases h

theorem sumDurations_concat (init : List Session) (s : Session) :
    sumDurations (init ++ [s]) = sumDurations init + s.duration := by
  simp [sumDurations, List.foldl_append, durationStep, orZero_eq]

/-- Closing the latest session when it is open. -/
theorem closeLatestSession_open (init : List Session) (s : Session) (endTime : Int)
    (hopen : s.endTime = none) :
    closeLatestSession (init ++ [s]) endTime =
      init ++ [{ startTime := s.startTime, endTime := some endTime,
                 duration := endTime - s.startTime }] := by
  unfold closeLatestSession
  simp [List.getLast?_concat, List.dropLast_concat, hopen]

/-- The document `stopTimeTracking` saves passes the validators when the stored one does and
the durations sum to a non-negative total. -/
theorem validate_stopSession (task : Task) (now : Int) (hv : validate task = true)
    (hq : 0 ≤ sumDurations (closeLatestSession task.timeTracking.sessions now)) :
    validate (stopSession task now) = true := by
  have hq2 : (0 : Rat) ≤
      ((sumDurations (closeLatestSession task.timeTracking.sessions now) : Int) : Rat) /
        (1000 * 60 * 60) := by
    have : (0 : Rat) ≤
        ((sumDurations (closeLatestSession task.timeTracking.sessions now) : Int) : Rat) := by
      exact_mod_cast hq
    positivity
  simp only [validate, stopSession, Bool.and_eq_true, decide_eq_true_eq] at hv ⊢
  obtain ⟨⟨⟨⟨⟨hs1, hp0⟩, hp1⟩, he⟩, _⟩, hsub⟩ := hv
  exact ⟨⟨⟨⟨⟨hs1, hp0⟩, hp1⟩, he⟩, hq2⟩, hsub⟩

/-- What `stopTimeTracking` does for the owner of a task that is tracking. -/
theorem stopTimeTracking_owner (task : Task) (now : Int)
    (hstarted : task.timeTracking.started = true) :
    stopTimeTracking (some task) task.assignedTo now =
      match save task (stopSession task now) now with
      | some saved => ⟨.ok "Time tracking stopped", some saved⟩
      | none => ⟨.validationError, some task⟩ := by
  unfold stopTimeTracking
  simp [hstarted]

/-- What `startTimeTracking` does for the owner of a task that is not tracking. -/
theorem startTimeTracking_owner (task : Task) (now : Int)
    (hnot : task.timeTracking.started = false) :
    startTimeTracking (some task) task.assignedTo now =
      match save task (startSession task now) now with
      | some saved => ⟨.ok "Time tracking started", some saved⟩
      | none => ⟨.validationError, some task⟩ := by
  unfold startTimeTracking
  simp [hnot]

theorem startSession_timeTracking (task : Task) (now : Int) :
    (startSession task now).timeTracking =
      { started := true
        startTime := some now
        sessions := task.timeTracking.sessions ++ [⟨now, none, 0⟩] } := by
  simp only [startSession]; split_ifs <;> rfl

theorem startSession_assignedTo (task : Task) (now : Int) :
    (startSession task now).assignedTo = task.assignedTo := by
  simp only [startSession]; split_ifs <;> rfl

theorem validate_startSession (task : Task) (now : Int) (hv : validate task = true) :
    validate (startSession task now) = true := by
  simp only [validate, statusEnum, Bool.and_eq_true, decide_eq_true_eq, startSession] at hv ⊢
  split_ifs <;> simp_all

/-- A start request and then a stop request by the owner, both successful: one closed
session is appended and `actualHours` is recomputed from all sessions. -/
theorem start_stop_cycle (task : Task) (T0 T1 : Int)
    (hnot : task.timeTracking.started = false)
    (hok1 : (startTimeTracking (some task) task.assignedTo T0).response.isOk = true)
    (hok2 : (stopTimeTracking (startTimeTracking (some task) task.assignedTo T0).doc
      task.assignedTo T1).response.isOk = true) :
    ∃ t, (stopTimeTracking (startTimeTracking (some task) task.assignedTo T0).doc
        task.assignedTo T1).doc = some t ∧
      t.timeTracking.sessions = task.timeTracking.sessions ++ [⟨T0, some T1, T1 - T0⟩] ∧
      t.actualHours = ((sumDurations t.timeTracking.sessions : Int) : Rat) / 3600000 ∧
      t.timeTracking.started = false ∧ t.assignedTo = task.assignedTo ∧
      validate t = true := by
  rw [startTimeTracking_owner task T0 hnot] at hok1 hok2 ⊢
  cases h1 : save task (startSession task T0) T0 with
  | none => rw [h1] at hok1; cases hok1
  | some t1 =>
    simp only [h1] at hok2 ⊢
    have hown : t1.assignedTo = task.assignedTo := by
      rw [save_assignedTo h1, startSession_assignedTo]
    have htt : t1.timeTracking =
        { started := true
          startTime := some T0
          sessions := task.timeTracking.sessions ++ [⟨T0, none, 0⟩] } := by
      rw [save_timeTracking h1, startSession_timeTracking]
    have hstarted : t1.timeTracking.started = true := by rw [htt]
    have hclose : closeLatestSession t1.timeTracking.sessions T1 =
        task.timeTracking.sessions ++ [⟨T0, some T1, T1 - T0⟩] := by
      rw [htt]
      exact closeLatestSession_open task.timeTracking.sessions ⟨T0, none, 0⟩ T1 rfl
    rw [← hown] at hok2 ⊢
    rw [stopTimeTracking_owner t1 T1 hstarted] at hok2 ⊢
    cases h2 : save t1 (stopSession t1 T1) T1 with
    | none => rw [h2] at hok2; cases hok2
    | some t =>
      have hsess : t.timeTracking.sessions =
          task.timeTracking.sessions ++ [⟨T0, some T1, T1 - T0⟩] := by
        rw [save_timeTracking h2]; simp only [stopSession]; exact hclose
      refine ⟨t, rfl, hsess, ?_, ?_, ?_, save_validate h2⟩
      · rw [save_actualHours h2, hsess]
        simp only [stopSession, hclose]
        norm_num
      · rw [save_timeTracking h2]; rfl
      · rw [save_assignedTo h2]; rfl

/-- A start request and then a stop request by the owner succeed on a task that passes the
validators, is not tracking, and whose durations with the new one sum to a non-negative
total. -/
theorem start_stop_succeeds (task : Task) (T0 T1 : Int)
    (hnot : task.timeTracking.started = false) (hv : validate task = true)
    (hsum : 0 ≤ sumDurations task.timeTracking.sessions + (T1 - T0)) :
    (startTimeTracking (some task) task.assignedTo T0).response.isOk = true ∧
      (stopTimeTracking (startTimeTracking (some task) task.assignedTo T0).doc
        task.assignedTo T1).response.isOk = true := by
  rw [startTimeTracking_owner task T0 hnot]
  obtain ⟨t1, h1⟩ := @save_isSome task _ T0 (validate_startSession task T0 hv)
  simp only [h1]
  have hown : t1.assignedTo = task.assignedTo := by
    rw [save_assignedTo h1, startSession_assignedTo]
  have htt : t1.timeTracking =
      { started := true
        startTime := some T0
        sessions := task.timeTracking.sessions ++ [⟨T0, none, 0⟩] } := by
    rw [save_timeTracking h1, startSession_timeTracking]
  have hstarted : t1.timeTracking.started = true := by rw [htt]
  have hclose : closeLatestSession t1.timeTracking.sessions T1 =
      task.timeTracking.sessions ++ [⟨T0, some T1, T1 - T0⟩] := by
    rw [htt]
    exact closeLatestSession_open task.timeTracking.sessions ⟨T0, none, 0⟩ T1 rfl
  refine ⟨rfl, ?_⟩
  rw [← hown, stopTimeTracking_owner t1 T1 hstarted]
  have hq : 0 ≤ sumDurations (closeLatestSession t1.timeTracking.sessions T1) := by
    rw [hclose, sumDurations_concat]; exact hsum
  obtain ⟨t, ht⟩ := @save_isSome t1 _ T1 (validate_stopSession t1 T1 (save_validate h1) hq)
  rw [ht]; rfl

theorem newTask_valid (owner : String) : validate (newTask owner []) = true := by
  simp [validate, newTask, statusEnum]

/-- One start/stop cycle on a task that passes the validators and has no negative total. -/
theorem runAll_cycle (task : Task) (T0 T1 : Int) (hnot : task.timeTracking.started = false)
    (hv : validate task = true) (hsum : 0 ≤ sumDurations task.timeTracking.sessions)
    (hle : T0 ≤ T1) :
    ∃ t, runAll [Op.startTimeTracking task.assignedTo T0, Op.stopTimeTracking task.assignedTo T1]
        (some task) = some t ∧
      t.timeTracking.sessions = task.timeTracking.sessions ++ [⟨T0, some T1, T1 - T0⟩] ∧
      t.actualHours = ((sumDurations t.timeTracking.sessions : Int) : Rat) / 3600000 ∧
      t.timeTracking.started = false ∧ t.assignedTo = task.assignedTo ∧
      validate t = true := by
  obtain ⟨hok1, hok2⟩ := start_stop_succeeds task T0 T1 hnot hv (by omega)
  exact start_stop_cycle task T0 T1 hnot hok1 hok2

theorem foldl_subtaskProgressStep (l : List Subtask) (acc : Int) :
    l.foldl subtaskProgressStep acc = acc + (l.map subtaskContribution).sum := by
  induction l generalizing acc with
  | nil => simp
  | cons s l ih =>
    rw [List.foldl_cons, ih]
    unfold subtaskProgressStep subtaskContribution
    rw [List.map_cons, List.sum_cons, orZero_eq]
    split_ifs <;> ring

theorem mathRound_le (x : Rat) : ((mathRound x : Int) : Rat) ≤ x + 1 / 2 :=
  Int.floor_le (x + 1 / 2)

theorem lt_mathRound (x : Rat) : x - 1 / 2 < ((mathRound x : Int) : Rat) := by
  have h := Int.lt_floor_add_one (x + 1 / 2)
  unfold mathRound
  linarith

/-! ## Lemmas on subtasks -/

theorem preSaveSubtask_inv (now : Int) (s : Subtask) : SubtaskInv (preSaveSubtask now s) := by
  unfold SubtaskInv preSaveSubtask
  split_ifs with h1 h2
  · simp [h1.1]
  · simp [h2]
  · have hc : s.completed = true := by simpa using h2
    have hne : s.completedAt ≠ none := fun h => h1 ⟨hc, h⟩
    simp [hc, hne]

theorem preSaveSubtask_of_inv (now : Int) {s : Subtask} (h : SubtaskInv s) :
    preSaveSubtask now s = s := by
  unfold SubtaskInv at h
  unfold preSaveSubtask
  split_ifs with h1 h2
  · exact absurd h1.2 (h.mp h1.1)
  · have : s.completedAt = none := by
      by_contra hne
      rw [h.mpr hne] at h2
      cases h2
    cases s
    simp_all
  · rfl

theorem otherKept_preSaveSubtask (now : Int) (x : Subtask) :
    OtherKept x (preSaveSubtask now x) := by
  refine ⟨?_, ?_, ?_, ?_, ?_, fun h => preSaveSubtask_of_inv now h⟩ <;>
    (unfold preSaveSubtask; split_ifs <;> rfl)

theorem otherKept_refl (x : Subtask) : OtherKept x x :=
  ⟨rfl, rfl, rfl, rfl, rfl, fun _ => rfl⟩

/-- The subtasks a save stores: those handed in, passed through the second hook when they
differ from the loaded ones. -/
theorem save_subtasks {orig cur t : Task} {now : Int} (h : save orig cur now = some t) :
    t.subtasks =
      if cur.subtasks ≠ orig.subtasks then cur.subtasks.map (preSaveSubtask now)
      else cur.subtasks := by
  unfold save at h
  split at h
  · cases h
    have hsub : (preSaveCompletedAt orig cur now).subtasks = cur.subtasks := by
      unfold preSaveCompletedAt; split_ifs <;> rfl
    unfold preSaveSubtasks
    rw [hsub]
    split_ifs <;> first | rfl | exact hsub
  · cases h

theorem save_estimatedHours {orig cur t : Task} {now : Int} (h : save orig cur now = some t) :
    t.estimatedHours = cur.estimatedHours := by
  unfold save at h
  split at h
  · cases h
    unfold preSaveSubtasks preSaveCompletedAt
    split_ifs <;> rfl
  · cases h

theorem save_dueDate {orig cur t : Task} {now : Int} (h : save orig cur now = some t) :
    t.dueDate = cur.dueDate := by
  unfold save at h
  split at h
  · cases h
    unfold preSaveSubtasks preSaveCompletedAt
    split_ifs <;> rfl
  · cases h

/-- A save that leaves `status` as loaded leaves `completedAt` as handed in. -/
theorem save_completedAt_of_status {orig cur t : Task} {now : Int}
    (h : save orig cur now = some t) (hs : cur.status = orig.status) :
    t.completedAt = cur.completedAt := by
  rw [save_completedAt h]
  unfold preSaveCompletedAt
  rw [if_neg (by simp [hs])]

/-- The stored subtasks are the handed-in ones mapped by one function, the identity or the
hook's body. -/
theorem save_subtasks_map {orig cur t : Task} {now : Int} (h : save orig cur now = some t) :
    ∃ g : Subtask → Subtask, (∀ x, OtherKept x (g x)) ∧ (∀ x, SubtaskInv x → g x = x) ∧
      t.subtasks = cur.subtasks.map g := by
  rw [save_subtasks h]
  split_ifs
  · exact ⟨preSaveSubtask now, otherKept_preSaveSubtask now,
      fun x hx => preSaveSubtask_of_inv now hx, rfl⟩
  · exact ⟨id, otherKept_refl, fun _ _ => rfl, (List.map_id _).symm⟩

theorem subtaskById_split {l pre post : List Subtask} {s : Subtask} {sid : String}
    (hl : l = pre ++ s :: post) (hpre : ∀ x ∈ pre, x._id ≠ sid) (hs : s._id = sid) :
    subtaskById l sid = some s := by
  subst hl
  induction pre with
  | nil => simp [subtaskById, hs]
  | cons a pre ih =>
    have ha : a._id ≠ sid := hpre a (List.mem_cons_self a pre)
    have hrest : ∀ x ∈ pre, x._id ≠ sid := fun x hx => hpre x (List.mem_cons_of_mem a hx)
    have := ih hrest
    simp only [subtaskById] at this ⊢
    rw [List.cons_append, List.find?_cons_of_neg _ (by simpa using ha)]
    exact this

theorem subtaskById_some {l : List Subtask} {s : Subtask} {sid : String}
    (h : subtaskById l sid = some s) :
    ∃ pre post, l = pre ++ s :: post ∧ (∀ x ∈ pre, x._id ≠ sid) ∧ s._id = sid := by
  induction l with
  | nil => simp [subtaskById] at h
  | cons a l ih =>
    by_cases ha : a._id = sid
    · have : subtaskById (a :: l) sid = some a := by simp [subtaskById, ha]
      rw [this] at h
      cases h
      exact ⟨[], l, rfl, by simp, ha⟩
    · have hrec : subtaskById l sid = some s := by
        simp only [subtaskById] at h ⊢
        rwa [List.find?_cons_of_neg _ (by simpa using ha)] at h
      obtain ⟨pre, post, hl, hpre, hs⟩ := ih hrec
      refine ⟨a :: pre, post, by rw [hl]; rfl, ?_, hs⟩
      intro x hx
      rcases List.mem_cons.mp hx with rfl | hx
      · exact ha
      · exact hpre x hx

theorem modifySubtask_split {l pre post : List Subtask} {s : Subtask} {sid : String}
    (f : Subtask → Subtask) (hl : l = pre ++ s :: post) (hpre : ∀ x ∈ pre, x._id ≠ sid)
    (hs : s._id = sid) :
    modifySubtask l sid f = pre ++ f s :: post := by
  subst hl
  induction pre with
  | nil => simp [modifySubtask, hs]
  | cons a pre ih =>
    have ha : a._id ≠ sid := hpre a (List.mem_cons_self a pre)
    have hrest : ∀ x ∈ pre, x._id ≠ sid := fun x hx => hpre x (List.mem_cons_of_mem a hx)
    simp [modifySubtask, ha, ih hrest]

theorem setSubtaskProgress_id (s : Subtask) (p now : Int) :
    (setSubtaskProgress s p now)._id = s._id := by
  simp only [setSubtaskProgress]; split_ifs <;> rfl

theorem setSubtaskProgress_progress (s : Subtask) (p now : Int) :
    (setSubtaskProgress s p now).progress = p := by
  simp only [setSubtaskProgress]; split_ifs <;> rfl

theorem setSubtaskProgress_full (s : Subtask) (now : Int) :
    (setSubtaskProgress s 100 now).completed = true ∧
      (setSubtaskProgress s 100 now).completedAt = some now := by
  simp [setSubtaskProgress]

theorem setSubtaskProgress_reopen (s : Subtask) (p now : Int) (hp : p < 100)
    (hc : s.completed = true) :
    (setSubtaskProgress s p now).completed = false ∧
      (setSubtaskProgress s p now).completedAt = none := by
  have h : p ≠ 100 := by omega
  simp [setSubtaskProgress, h, hp, hc]

theorem validSubtask_setSubtaskProgress (s : Subtask) (p now : Int) (h0 : 0 ≤ p)
    (h100 : p ≤ 100) (hv : validSubtask s = true) :
    validSubtask (setSubtaskProgress s p now) = true := by
  simp only [validSubtask, Bool.and_eq_true, decide_eq_true_eq] at hv ⊢
  simp only [setSubtaskProgress]
  split_ifs <;> simp_all

/-- What `updateSubtaskProgress` did when it answered 200. -/
theorem updateSubtaskProgress_ok (task : Task) (userId sid : String) (p now : Int)
    (hok : (updateSubtaskProgress (some task) userId sid p now).response.isOk = true) :
    ∃ t, (updateSubtaskProgress (some task) userId sid p now).doc = some t ∧
      save task
        { task with
          subtasks := modifySubtask task.subtasks sid (fun s => setSubtaskProgress s p now) }
        now = some t ∧
      0 ≤ p ∧ p ≤ 100 ∧ task.assignedTo = userId := by
  simp only [updateSubtaskProgress] at hok ⊢
  split_ifs at hok ⊢ with h1 h2
  · cases hok
  · cases hok
  · split at hok
    · cases hok
    · rename_i s0 h3
      split at hok
      · rename_i saved hs
        refine ⟨saved, ?_, hs, by omega, by omega, not_not.mp h2⟩
        simp only [h3, hs]
      · cases hok

theorem all_validSubtask_modifySubtask (l : List Subtask) (sid : String)
    (f : Subtask → Subtask) (hf : ∀ x, validSubtask x = true → validSubtask (f x) = true)
    (hl : l.all validSubtask = true) : (modifySubtask l sid f).all validSubtask = true := by
  induction l with
  | nil => simp [modifySubtask]
  | cons a l ih =>
    simp only [List.all_cons, Bool.and_eq_true] at hl
    unfold modifySubtask
    split_ifs
    · simp only [List.all_cons, Bool.and_eq_true]
      exact ⟨hf a hl.1, hl.2⟩
    · simp only [List.all_cons, Bool.and_eq_true]
      exact ⟨hl.1, ih hl.2⟩

/-- What `updateSubtaskProgress` does for the owner with a progress inside the range and an
existing subtask. -/
theorem updateSubtaskProgress_owner (task : Task) (sid : String) (p now : Int) (s : Subtask)
    (h0 : 0 ≤ p) (h100 : p ≤ 100) (hfind : subtaskById task.subtasks sid = some s) :
    updateSubtaskProgress (some task) task.assignedTo sid p now =
      match save task
        { task with
          subtasks := modifySubtask task.subtasks sid (fun s => setSubtaskProgress s p now) }
        now with
      | some saved => ⟨.ok "Subtask progress updated successfully", some saved⟩
      | none => ⟨.validationError, some task⟩ := by
  unfold updateSubtaskProgress
  rw [if_neg (by omega)]
  simp [hfind]

/-- The subtasks stored by a successful `updateSubtaskProgress`, around the targeted one. -/
theorem updateSubtaskProgress_subtasks {task t : Task} {sid : String} {p now : Int}
    {pre post : List Subtask} {s : Subtask}
    (hsave : save task
      { task with
        subtasks := modifySubtask task.subtasks sid (fun s => setSubtaskProgress s p now) }
      now = some t)
    (hsplit : task.subtasks = pre ++ s :: post) (hpre : ∀ x ∈ pre, x._id ≠ sid)
    (hs : s._id = sid) :
    ∃ g : Subtask → Subtask, (∀ x, OtherKept x (g x)) ∧ (∀ x, SubtaskInv x → g x = x) ∧
      t.subtasks = pre.map g ++ g (setSubtaskProgress s p now) :: post.map g := by
  obtain ⟨g, hg1, hg2, hsub⟩ := save_subtasks_map hsave
  refine ⟨g, hg1, hg2, ?_⟩
  rw [hsub]
  show (modifySubtask task.subtasks sid (fun s => setSubtaskProgress s p now)).map g = _
  rw [modifySubtask_split _ hsplit hpre hs, List.map_append, List.map_cons]

/-- A handler either leaves the stored document alone or stores what one `save` returned. -/
theorem Op.run_saved (op : Op) (task t : Task) (h : (op.run (some task)).doc = some t) :
    t = task ∨ ∃ cur now, save task cur now = some t := by
  cases op <;>
    simp only [Op.run, updateTaskProgress, updateSubtaskProgress,
      TaskManager.startTimeTracking, TaskManager.stopTimeTracking,
      TaskManager.updateTimeEstimates] at h <;>
    (repeat' first | split_ifs at h | split at h) <;>
    first
      | (cases h; exact Or.inl rfl)
      | (cases h; exact Or.inr ⟨_, _, by assumption⟩)

/-- After a save that ran the second hook every subtask satisfies the invariant. -/
theorem save_subtaskInv {orig cur t : Task} {now : Int} (h : save orig cur now = some t)
    (hmod : cur.subtasks ≠ orig.subtasks) : ∀ s ∈ t.subtasks, SubtaskInv s := by
  rw [save_subtasks h, if_pos hmod]
  intro s hs
  obtain ⟨x, _, rfl⟩ := List.mem_map.mp hs
  exact preSaveSubtask_inv now x

/-! ## Lemmas on time tracking -/

theorem autoStatus_timeTracking (task : Task) (p : Int) :
    (autoStatus task p).timeTracking = task.timeTracking := by
  unfold autoStatus; split_ifs <;> rfl

theorem startSession_status (task : Task) (now : Int) :
    (startSession task now).status =
      if task.status = "todo" then "in-progress" else task.status := by
  simp only [startSession]; split_ifs <;> rfl

/-- The three things a request can do to `timeTracking`: nothing, start, or stop. -/
theorem Op.run_timeTracking (op : Op) (task t : Task)
    (h : (op.run (some task)).doc = some t) :
    t.timeTracking = task.timeTracking ∨
      (task.timeTracking.started = false ∧ ∃ now, t.timeTracking =
        ⟨true, some now, task.timeTracking.sessions ++ [⟨now, none, 0⟩]⟩) ∨
      (task.timeTracking.started = true ∧ ∃ now, t.timeTracking =
        ⟨false, task.timeTracking.startTime,
          closeLatestSession task.timeTracking.sessions now⟩) := by
  cases op with
  | setTaskProgress u p now =>
    left
    simp only [Op.run, updateTaskProgress] at h
    split_ifs at h with h1 h2
    · cases h; rfl
    · cases h; rfl
    · split at h
      · rename_i saved hs
        cases h
        rw [save_timeTracking hs, autoStatus_timeTracking]
      · cases h; rfl
  | setSubtaskProgress u sid p now =>
    left
    simp only [Op.run, updateSubtaskProgress] at h
    split_ifs at h with h1 h2
    · cases h; rfl
    · cases h; rfl
    · split at h
      · cases h; rfl
      · split at h
        · rename_i saved hs
          cases h
          rw [save_timeTracking hs]
        · cases h; rfl
  | startTimeTracking u now =>
    simp only [Op.run, TaskManager.startTimeTracking] at h
    split_ifs at h with h1 h2
    · cases h; exact Or.inl rfl
    · cases h; exact Or.inl rfl
    · split at h
      · rename_i saved hs
        cases h
        right; left
        refine ⟨by simpa using h2, now, ?_⟩
        rw [save_timeTracking hs, startSession_timeTracking]
      · cases h; exact Or.inl rfl
  | stopTimeTracking u now =>
    simp only [Op.run, TaskManager.stopTimeTracking] at h
    split_ifs at h with h1 h2
    · cases h; exact Or.inl rfl
    · cases h; exact Or.inl rfl
    · split at h
      · rename_i saved hs
        cases h
        right; right
        refine ⟨by simpa using h2, now, ?_⟩
        rw [save_timeTracking hs]
        rfl
      · cases h; exact Or.inl rfl
  | updateTimeEstimates u eh es now =>
    left
    simp only [Op.run, TaskManager.updateTimeEstimates] at h
    split_ifs at h with h1
    · cases h; rfl
    · split at h
      · rename_i saved hs
        cases h
        rw [save_timeTracking hs]
        cases eh <;> cases es <;> rfl
      · cases h; rfl

/-- Every request keeps the time-tracking invariant. -/
theorem Op.run_trackingInv (op : Op) (task t : Task)
    (h : (op.run (some task)).doc = some t) (hinv : TrackingInv task.timeTracking) :
    TrackingInv t.timeTracking := by
  rcases Op.run_timeTracking op task t h with heq | ⟨hnot, now, heq⟩ | ⟨hyes, now, heq⟩
  · rw [heq]; exact hinv
  · rw [heq]
    refine ⟨fun _ => ⟨task.timeTracking.sessions, ⟨now, none, 0⟩, rfl, rfl, hinv.2 hnot⟩, ?_⟩
    intro hfalse
    cases hfalse
  · rw [heq]
    obtain ⟨init, last, hsess, hopen, hinit⟩ := hinv.1 hyes
    refine ⟨fun htrue => (by cases htrue), fun _ => ?_⟩
    show ∀ s ∈ closeLatestSession task.timeTracking.sessions now, s.endTime ≠ none
    rw [hsess, closeLatestSession_open init last now hopen]
    intro s hs
    rcases List.mem_append.mp hs with hs | hs
    · exact hinit s hs
    · rw [List.mem_singleton.mp hs]
      simp

/-- A property kept by every request holds after any sequence of requests. -/
theorem runAll_preserves (P : Task → Prop)
    (hstep : ∀ (op : Op) (t u : Task), (op.run (some t)).doc = some u → P t → P u)
    (ops : List Op) (t0 t : Task) (h0 : P t0) (h : runAll ops (some t0) = some t) : P t := by
  induction ops generalizing t0 with
  | nil =>
    simp only [runAll, List.foldl_nil, Option.some.injEq] at h
    rw [← h]; exact h0
  | cons op rest ih =>
    obtain ⟨t1, h1⟩ := Op.run_some op t0
    have hstep2 : runAll (op :: rest) (some t0) = runAll rest (op.run (some t0)).doc := by
      simp [runAll]
    rw [hstep2, h1] at h
    exact ih t1 (hstep op t0 t1 h1 h0) h

theorem trackingInv_started_iff {tt : TimeTracking} (hinv : TrackingInv tt) :
    tt.started = true ↔ ∃ last, tt.sessions.getLast? = some last ∧ last.endTime = none := by
  constructor
  · intro hs
    obtain ⟨init, last, hsess, hopen, _⟩ := hinv.1 hs
    exact ⟨last, by rw [hsess, List.getLast?_concat], hopen⟩
  · rintro ⟨last, hlast, hopen⟩
    by_contra hs
    have hfalse : tt.started = false := by simpa using hs
    exact hinv.2 hfalse last (List.mem_of_getLast?_eq_some hlast) hopen

theorem trackingInv_openSessions {tt : TimeTracking} (hinv : TrackingInv tt) :
    openSessions tt.sessions ≤ 1 := by
  have hzero : ∀ l : List Session, (∀ s ∈ l, s.endTime ≠ none) →
      l.countP (fun s => s.endTime.isNone) = 0 := by
    intro l hl
    rw [List.countP_eq_zero]
    intro s hs
    simpa using hl s hs
  unfold openSessions
  cases hs : tt.started with
  | true =>
    obtain ⟨init, last, hsess, _, hinit⟩ := hinv.1 hs
    rw [hsess, List.countP_append, hzero init hinit, List.countP_singleton]
    split_ifs <;> simp
  | false =>
    rw [hzero _ (hinv.2 hs)]
    exact Nat.zero_le 1

/-! ## Lemmas on progress requests -/

/-- What `updateTaskProgress` did when it answered 200. -/
theorem updateTaskProgress_ok (task : Task) (userId : String) (p now : Int)
    (hok : (updateTaskProgress (some task) userId p now).response.isOk = true) :
    ∃ t, (updateTaskProgress (some task) userId p now).doc = some t ∧
      save task (autoStatus { task with progress := p } p) now = some t ∧
      0 ≤ p ∧ p ≤ 100 ∧ task.assignedTo = userId := by
  simp only [updateTaskProgress] at hok ⊢
  split_ifs at hok ⊢ with h1 h2
  · cases hok
  · cases hok
  · split at hok
    · rename_i saved hs
      refine ⟨saved, ?_, hs, by omega, by omega, not_not.mp h2⟩
      simp only [hs]
    · cases hok

/-- The sum of the contributions of subtasks whose progress lies in [0,100]. -/
theorem sum_subtaskContribution_bounds (l : List Subtask)
    (hl : ∀ s ∈ l, 0 ≤ s.progress ∧ s.progress ≤ 100) :
    0 ≤ (l.map subtaskContribution).sum ∧
      (l.map subtaskContribution).sum ≤ 100 * (l.length : Int) := by
  induction l with
  | nil => simp
  | cons a l ih =>
    have ha := hl a (List.mem_cons_self a l)
    have hrest := ih (fun s hs => hl s (List.mem_cons_of_mem a hs))
    have hc : 0 ≤ subtaskContribution a ∧ subtaskContribution a ≤ 100 := by
      unfold subtaskContribution
      split_ifs
      · exact ⟨by decide, le_refl _⟩
      · exact ha
    rw [List.map_cons, List.sum_cons, List.length_cons]
    push_cast
    constructor
    · omega
    · omega

theorem mathRound_bounds (x : Rat) (h0 : 0 ≤ x) (h100 : x ≤ 100) :
    0 ≤ mathRound x ∧ mathRound x ≤ 100 := by
  unfold mathRound
  constructor
  · exact Int.floor_nonneg.mpr (by linarith)
  · have hlt : Int.floor (x + 1 / 2) < 101 := by
      rw [Int.floor_lt]
      push_cast
      linarith
    omega

/-! ## Lemmas on estimates -/

theorem modifySubtask_ids (l : List Subtask) (sid : String) (f : Subtask → Subtask)
    (hf : ∀ x, (f x)._id = x._id) :
    (modifySubtask l sid f).map (fun x => x._id) = l.map (fun x => x._id) := by
  induction l with
  | nil => rfl
  | cons a l ih =>
    unfold modifySubtask
    split_ifs
    · simp [hf a]
    · simp [ih]

/-- A modification aimed at another `_id` leaves a subtask where it is. -/
theorem modifySubtask_other (pre post : List Subtask) (s : Subtask) (sid : String)
    (f : Subtask → Subtask) (hf : ∀ x, (f x)._id = x._id) (hs : s._id ≠ sid) :
    ∃ pre2 post2, modifySubtask (pre ++ s :: post) sid f = pre2 ++ s :: post2 ∧
      pre2.map (fun x => x._id) = pre.map (fun x => x._id) := by
  induction pre with
  | nil =>
    refine ⟨[], modifySubtask post sid f, ?_, rfl⟩
    simp [modifySubtask, hs]
  | cons a pre ih =>
    obtain ⟨pre2, post2, h, hid⟩ := ih
    by_cases ha : a._id = sid
    · refine ⟨f a :: pre, post, ?_, ?_⟩
      · simp [modifySubtask, ha]
      · simp [hf a]
    · refine ⟨a :: pre2, post2, ?_, ?_⟩
      · simp [modifySubtask, ha, h]
      · simp [hid]

theorem subtaskById_isSome_iff (l : List Subtask) (sid : String) :
    (subtaskById l sid).isSome = true ↔ sid ∈ l.map (fun x => x._id) := by
  induction l with
  | nil => simp [subtaskById]
  | cons a l ih =>
    by_cases ha : a._id = sid
    · simp [subtaskById, ha]
    · have hrec : subtaskById (a :: l) sid = subtaskById l sid := by
        simp only [subtaskById]
        rw [List.find?_cons_of_neg _ (by simpa using ha)]
      rw [hrec, ih]
      simp only [List.map_cons, List.mem_cons]
      constructor
      · intro h; exact Or.inr h
      · rintro (h | h)
        · exact absurd h.symm ha
        · exact h

theorem applyEstimate_ids (l : List Subtask) (e : SubtaskEstimate) :
    (applyEstimate l e).map (fun x => x._id) = l.map (fun x => x._id) := by
  unfold applyEstimate
  split
  · rfl
  · exact modifySubtask_ids l _ _ (fun _ => rfl)

theorem foldl_applyEstimate_ids (es : List SubtaskEstimate) (l : List Subtask) :
    (es.foldl applyEstimate l).map (fun x => x._id) = l.map (fun x => x._id) := by
  induction es generalizing l with
  | nil => rfl
  | cons e es ih => rw [List.foldl_cons, ih, applyEstimate_ids]

/-- An entry that names the first subtask with its `_id` sets that subtask's estimate. -/
theorem applyEstimate_same (pre post : List Subtask) (s : Subtask) (e : SubtaskEstimate)
    (hpre : ∀ x ∈ pre, x._id ≠ s._id) (he : e.subtaskId = s._id) :
    applyEstimate (pre ++ s :: post) e =
      pre ++ { s with estimatedHours := e.estimatedHours } :: post := by
  have hpre2 : ∀ x ∈ pre, x._id ≠ e.subtaskId := by rw [he]; exact hpre
  unfold applyEstimate
  rw [subtaskById_split rfl hpre2 he.symm]
  exact modifySubtask_split _ rfl hpre2 he.symm

/-- An entry that names another `_id` leaves a subtask where it is. -/
theorem applyEstimate_other (pre post : List Subtask) (s : Subtask) (e : SubtaskEstimate)
    (he : e.subtaskId ≠ s._id) :
    ∃ pre2 post2, applyEstimate (pre ++ s :: post) e = pre2 ++ s :: post2 ∧
      pre2.map (fun x => x._id) = pre.map (fun x => x._id) := by
  unfold applyEstimate
  split
  · exact ⟨pre, post, rfl, rfl⟩
  · exact modifySubtask_other pre post s _ _ (fun _ => rfl) (fun h => he h.symm)

/-- The estimate a subtask ends with after the entries were applied in order. -/
theorem foldl_applyEstimate_named (es : List SubtaskEstimate) (pre post : List Subtask)
    (s : Subtask) (hpre : ∀ x ∈ pre, x._id ≠ s._id) :
    ∃ pre2 post2 h, es.foldl applyEstimate (pre ++ s :: post) =
        pre2 ++ { s with estimatedHours := h } :: post2 ∧
      pre2.map (fun x => x._id) = pre.map (fun x => x._id) ∧
      (∀ before e after, es = before ++ e :: after → e.subtaskId = s._id →
        (∀ x ∈ after, x.subtaskId ≠ s._id) → h = e.estimatedHours) ∧
      ((∀ x ∈ es, x.subtaskId ≠ s._id) → h = s.estimatedHours) := by
  induction es generalizing pre post s with
  | nil =>
    refine ⟨pre, post, s.estimatedHours, rfl, rfl, ?_, fun _ => rfl⟩
    intro before e after h
    simp at h
  | cons e es ih =>
    rw [List.foldl_cons]
    by_cases he : e.subtaskId = s._id
    · rw [applyEstimate_same pre post s e hpre he]
      obtain ⟨pre2, post2, h, hfold, hid, hlast, hnone⟩ :=
        ih pre post { s with estimatedHours := e.estimatedHours } hpre
      refine ⟨pre2, post2, h, hfold, hid, ?_, ?_⟩
      · intro before x after hsplit hx hafter
        cases before with
        | nil =>
          simp only [List.nil_append, List.cons.injEq] at hsplit
          obtain ⟨rfl, rfl⟩ := hsplit
          exact hnone hafter
        | cons b before =>
          simp only [List.cons_append, List.cons.injEq] at hsplit
          exact hlast before x after hsplit.2 hx hafter
      · intro hall
        exact absurd he (hall e (List.mem_cons_self e es))
    · obtain ⟨pre1, post1, hstep, hid1⟩ := applyEstimate_other pre post s e he
      have hpre1 : ∀ x ∈ pre1, x._id ≠ s._id := by
        intro x hx
        have hmem : x._id ∈ pre1.map (fun x => x._id) := List.mem_map_of_mem _ hx
        rw [hid1] at hmem
        obtain ⟨y, hy, hxy⟩ := List.mem_map.mp hmem
        rw [← hxy]
        exact hpre y hy
      rw [hstep]
      obtain ⟨pre2, post2, h, hfold, hid, hlast, hnone⟩ := ih pre1 post1 s hpre1
      refine ⟨pre2, post2, h, hfold, hid.trans hid1, ?_, ?_⟩
      · intro before x after hsplit hx hafter
        cases before with
        | nil =>
          simp only [List.nil_append, List.cons.injEq] at hsplit
          obtain ⟨rfl, rfl⟩ := hsplit
          exact absurd hx he
        | cons b before =>
          simp only [List.cons_append, List.cons.injEq] at hsplit
          exact hlast before x after hsplit.2 hx hafter
      · intro hall
        exact hnone (fun x hx => hall x (List.mem_cons_of_mem e hx))

/-- A subtask that no entry names is left where it is, whatever its place in the list. -/
theorem foldl_applyEstimate_unnamed (es : List SubtaskEstimate) (pre post : List Subtask)
    (s : Subtask) (hes : ∀ e ∈ es, e.subtaskId ≠ s._id) :
    ∃ pre2 post2, es.foldl applyEstimate (pre ++ s :: post) = pre2 ++ s :: post2 ∧
      pre2.map (fun x => x._id) = pre.map (fun x => x._id) := by
  induction es generalizing pre post with
  | nil => exact ⟨pre, post, rfl, rfl⟩
  | cons e es ih =>
    rw [List.foldl_cons]
    obtain ⟨pre1, post1, hstep, hid1⟩ :=
      applyEstimate_other pre post s e (hes e (List.mem_cons_self e es))
    rw [hstep]
    obtain ⟨pre2, post2, hfold, hid⟩ :=
      ih pre1 post1 (fun x hx => hes x (List.mem_cons_of_mem e hx))
    exact ⟨pre2, post2, hfold, hid.trans hid1⟩

/-- Applying entries whose estimates for existing subtasks are non-negative keeps the
subtasks valid. -/
theorem all_validSubtask_foldl_applyEstimate (es : List SubtaskEstimate) (l : List Subtask)
    (hes : ∀ e ∈ es, (subtaskById l e.subtaskId).isSome = true → 0 ≤ e.estimatedHours)
    (hl : l.all validSubtask = true) :
    (es.foldl applyEstimate l).all validSubtask = true := by
  induction es generalizing l with
  | nil => exact hl
  | cons e es ih =>
    rw [List.foldl_cons]
    apply ih
    · intro x hx hsome
      apply hes x (List.mem_cons_of_mem e hx)
      rw [subtaskById_isSome_iff] at hsome ⊢
      rwa [applyEstimate_ids] at hsome
    · unfold applyEstimate
      split
      · exact hl
      · rename_i s0 hfind
        have h0 : 0 ≤ e.estimatedHours :=
          hes e (List.mem_cons_self e es) (by rw [hfind]; rfl)
        apply all_validSubtask_modifySubtask _ _ _ _ hl
        intro x hx
        simp only [validSubtask, Bool.and_eq_true, decide_eq_true_eq] at hx ⊢
        exact ⟨⟨⟨hx.1.1.1, hx.1.1.2⟩, h0⟩, hx.2⟩

/-- What `updateTimeEstimates` does for the owner. -/
theorem updateTimeEstimates_owner (task : Task) (eh : Option Rat)
    (es : Option (List SubtaskEstimate)) (now : Int) :
    updateTimeEstimates (some task) task.assignedTo eh es now =
      match save task
        { task with
          estimatedHours := eh.getD task.estimatedHours
          subtasks := estimatedSubtasks task.subtasks es }
        now with
      | some saved => ⟨.ok "Time estimates updated successfully", some saved⟩
      | none => ⟨.validationError, some task⟩ := by
  simp only [updateTimeEstimates, ne_eq, not_true_eq_false, if_false]
  cases eh <;> cases es <;> rfl

/-- What `updateTimeEstimates` did when it answered 200. -/
theorem updateTimeEstimates_ok (task : Task) (userId : String) (eh : Option Rat)
    (es : Option (List SubtaskEstimate)) (now : Int)
    (hok : (updateTimeEstimates (some task) userId eh es now).response.isOk = true) :
    task.assignedTo = userId := by
  by_contra hne
  simp only [updateTimeEstimates, if_pos hne] at hok
  cases hok

/-- The owner's `updateTimeEstimates` succeeds on a task that passes the validators when the
task-level estimate, if given, and the estimates of the entries that name an existing
subtask are non-negative. -/
theorem updateTimeEstimates_succeeds (task : Task) (eh : Option Rat)
    (es : Option (List SubtaskEstimate)) (now : Int) (hv : validate task = true)
    (heh : ∀ h, eh = some h → 0 ≤ h)
    (hes : ∀ l, es = some l → ∀ e ∈ l,
      (subtaskById task.subtasks e.subtaskId).isSome = true → 0 ≤ e.estimatedHours) :
    (updateTimeEstimates (some task) task.assignedTo eh es now).response.isOk = true := by
  rw [updateTimeEstimates_owner]
  have hv2 : validate
      { task with
        estimatedHours := eh.getD task.estimatedHours
        subtasks := estimatedSubtasks task.subtasks es } = true := by
    simp only [validate, Bool.and_eq_true, decide_eq_true_eq] at hv ⊢
    obtain ⟨⟨⟨⟨⟨hs, hp0⟩, hp1⟩, he⟩, ha⟩, hsub⟩ := hv
    refine ⟨⟨⟨⟨⟨hs, hp0⟩, hp1⟩, ?_⟩, ha⟩, ?_⟩
    · cases eh with
      | none => exact he
      | some h => exact heh h rfl
    · cases es with
      | none => exact hsub
      | some l => exact all_validSubtask_foldl_applyEstimate l task.subtasks (hes l rfl) hsub
  obtain ⟨t, ht⟩ := @save_isSome task _ now hv2
  rw [ht]; rfl

/-- The document a successful `updateTimeEstimates` of the owner stored. -/
theorem updateTimeEstimates_saved (task : Task) (eh : Option Rat)
    (es : Option (List SubtaskEstimate)) (now : Int)
    (hok : (updateTimeEstimates (some task) task.assignedTo eh es now).response.isOk = true) :
    ∃ t, (updateTimeEstimates (some task) task.assignedTo eh es now).doc = some t ∧
      save task
        { task with
          estimatedHours := eh.getD task.estimatedHours
          subtasks := estimatedSubtasks task.subtasks es }
        now = some t := by
  rw [updateTimeEstimates_owner] at hok ⊢
  split at hok
  · rename_i saved hs
    exact ⟨saved, by simp only [hs], hs⟩
  · cases hok

/-! ## Lemmas on the suggestion heuristics -/

theorem recommendationsBeforeSlice_length (userTasks : List Task) (dayOfWeek : String)
    (hour : Nat) (now : Int) :
    (recommendationsBeforeSlice userTasks dayOfWeek hour now).length ≤ 3 := by
  simp only [recommendationsBeforeSlice]
  split_ifs <;> first | omega | simp

theorem recommendationsBeforeSlice_overdue (userTasks : List Task) (dayOfWeek : String)
    (hour : Nat) (now : Int)
    (h : ∃ t ∈ userTasks, isOverdue t now = true ∧ t.status ≠ "completed") :
    ∃ r ∈ recommendationsBeforeSlice userTasks dayOfWeek hour now,
      r.title = "Address Overdue Tasks" := by
  obtain ⟨t, ht, hover, hstat⟩ := h
  have hmem : t ∈ userTasks.filter
      (fun task => isOverdue task now && decide (task.status ≠ "completed")) := by
    rw [List.mem_filter]
    exact ⟨ht, by simp [hover, hstat]⟩
  have hlen : (userTasks.filter
      (fun task => isOverdue task now && decide (task.status ≠ "completed"))).length > 0 :=
    List.length_pos_of_mem hmem
  simp only [recommendationsBeforeSlice]
  rw [if_pos hlen]
  exact ⟨_, List.mem_append_right _ (List.mem_singleton_self _), rfl⟩

theorem foldr_max_insert (l : List Rat) (a h : Rat) :
    l.foldr max (max a h) = max h (l.foldr max a) := by
  induction l with
  | nil => exact max_comm a h
  | cons x l ih =>
    rw [List.foldr_cons, List.foldr_cons, ih, max_left_comm]

/-- The loop over `timeKeywords` computes the largest of the start value and the hours of
the keywords contained in the text. -/
theorem foldl_keywordStep (text : String) (l : List (String × Rat)) (acc : Rat) :
    l.foldl (keywordStep text) acc =
      ((l.filter (fun entry => includes text entry.1)).map (fun e => e.2)).foldr max acc := by
  induction l generalizing acc with
  | nil => rfl
  | cons e l ih =>
    rw [List.foldl_cons, ih]
    unfold keywordStep
    by_cases he : includes text e.1 = true
    · have hf : (e :: l).filter (fun entry => includes text entry.1) =
          e :: l.filter (fun entry => includes text entry.1) :=
        List.filter_cons_of_pos (by simpa using he)
      rw [if_pos he, hf, List.map_cons, List.foldr_cons, foldr_max_insert]
    · have hf : (e :: l).filter (fun entry => includes text entry.1) =
          l.filter (fun entry => includes text entry.1) :=
        List.filter_cons_of_neg (by simpa using he)
      rw [if_neg he, hf]

theorem one_le_foldr_max (l : List Rat) : 1 ≤ l.foldr max 1 := by
  induction l with
  | nil => exact le_refl 1
  | cons x l ih => exact le_max_of_le_right ih

theorem estimateTimeRequired_eq (toLowerCase : String → String) (title description : String) :
    estimateTimeRequired toLowerCase title description =
      ((mathRound (unroundedEstimate toLowerCase title description * 4) : Int) : Rat) / 4 := by
  simp only [estimateTimeRequired, unroundedEstimate, foldl_keywordStep]
  split_ifs <;> simp

theorem unroundedEstimate_ge (toLowerCase : String → String) (title description : String) :
    7 / 10 ≤ unroundedEstimate toLowerCase title description := by
  simp only [unroundedEstimate]
  have h1 := one_le_foldr_max
    ((timeKeywords.filter
      (fun entry => includes (toLowerCase (title ++ " " ++ description)) entry.1)).map
      (fun e => e.2))
  split_ifs <;> nlinarith

/-- The lower-cased text "write report " contains the keyword `write` only; with an empty
description the two hours become 1.4, which rounds to 1.5. -/
theorem estimateTimeRequired_write_report :
    estimateTimeRequired id "write report" "" = 3 / 2 := by
  have happ : ("write report" ++ " " ++ "" : String) = "write report " := by decide
  have hf : timeKeywords.filter
      (fun entry => includes (id ("write report" ++ " " ++ "")) entry.1) = [("write", 2)] := by
    have h : ∀ kw : String, kw ∈ ["quick", "fast", "brief", "short", "meeting", "call",
        "email", "review", "read", "research", "project", "develop", "design", "plan"] →
        includes "write report " kw = false := by decide
    have hw : includes "write report " "write" = true := by decide
    simp only [id, happ, timeKeywords]
    simp [List.filter_cons, h, hw]
  have h : unroundedEstimate id "write report" "" = 7 / 5 := by
    simp only [unroundedEstimate, hf]
    have hw : wordCount "" = 1 := by decide
    rw [hw]
    norm_num
  rw [estimateTimeRequired_eq, h]
  unfold mathRound
  norm_num [Int.floor_eq_iff]

theorem orOne_nonneg {x : Rat} (h : 0 ≤ x) : 0 ≤ orOne x := by
  unfold orOne
  split_ifs
  · exact zero_le_one
  · exact h

theorem le_timeClip (c : Int) (d : Rat) (hd : 0 ≤ d) : c ≤ timeClip ((c : Rat) + d) := by
  unfold timeClip
  split_ifs
  · rw [Int.le_floor]
    linarith
  · have h := Int.le_ceil ((c : Rat) + d)
    have h2 : (c : Rat) ≤ ((Int.ceil ((c : Rat) + d) : Int) : Rat) := by linarith
    exact_mod_cast h2

theorem timeClip_intCast (n : Int) : timeClip (n : Rat) = n := by
  unfold timeClip
  split_ifs
  · exact Int.floor_intCast n
  · exact Int.ceil_intCast n

/-- What the loop of `generateSmartSchedule` builds from `currentTime` on. -/
theorem scheduleLoop_layout {F : Type} (ops : NumberOps F) (endTime : Int)
    (tasks : List Task) (currentTime : Int) :
    (∀ e, (scheduleLoop ops endTime tasks currentTime).head? = some e →
        e.startTime = currentTime) ∧
      (∀ e ∈ scheduleLoop ops endTime tasks currentTime, e.endTime ≤ endTime) ∧
      (∀ e ∈ scheduleLoop ops endTime tasks currentTime, ∃ task ∈ tasks,
        e.estimatedHours = orOne task.estimatedHours ∧
        e.duration = ops.mul (ops.ofRat e.estimatedHours) (ops.ofRat 60) ∧
        ops.timeClip (ops.add (ops.ofRat e.startTime) (ops.mul e.duration (ops.ofRat 60000)))
          = some e.endTime) ∧
      List.Chain' (fun a b : ScheduleEntry F => b.startTime = a.endTime + 15 * 60000)
        (scheduleLoop ops endTime tasks currentTime) := by
  induction tasks generalizing currentTime with
  | nil => simp [scheduleLoop]
  | cons task rest ih =>
    simp only [scheduleLoop]
    split
    · rename_i taskEndTime hclip
      split_ifs with h1 h2 h3
      · refine ⟨?_, ?_, ?_, List.chain'_singleton _⟩
        · intro e he
          simp only [List.head?_cons, Option.some.injEq] at he
          rw [← he]
        · intro e he
          rw [List.mem_singleton.mp he]
          exact h1
        · intro e he
          rw [List.mem_singleton.mp he]
          exact ⟨task, List.mem_cons_self _ _, rfl, rfl, hclip⟩
      · obtain ⟨ihead, iend, idur, ichain⟩ := ih (taskEndTime + 15 * 60000)
        refine ⟨?_, ?_, ?_, ?_⟩
        · intro e he
          simp only [List.head?_cons, Option.some.injEq] at he
          rw [← he]
        · intro e he
          rcases List.mem_cons.mp he with rfl | he
          · exact h1
          · exact iend e he
        · intro e he
          rcases List.mem_cons.mp he with rfl | he
          · exact ⟨task, List.mem_cons_self _ _, rfl, rfl, hclip⟩
          · obtain ⟨t, ht, h⟩ := idur e he
            exact ⟨t, List.mem_cons_of_mem _ ht, h⟩
        · rw [List.chain'_cons']
          refine ⟨?_, ichain⟩
          intro y hy
          exact ihead y hy
      · simp
      · obtain ⟨ihead, iend, idur, ichain⟩ := ih currentTime
        refine ⟨ihead, iend, ?_, ichain⟩
        intro e he
        obtain ⟨t, ht, h⟩ := idur e he
        exact ⟨t, List.mem_cons_of_mem _ ht, h⟩
    · split_ifs with h3
      · simp
      · obtain ⟨ihead, iend, idur, ichain⟩ := ih currentTime
        refine ⟨ihead, iend, ?_, ichain⟩
        intro e he
        obtain ⟨t, ht, h⟩ := idur e he
        exact ⟨t, List.mem_cons_of_mem _ ht, h⟩

/-- Every entry starts at or after the instant the loop was entered with. -/
theorem scheduleLoop_startTime {F : Type} (ops : NumberOps F) (endTime : Int)
    (tasks : List Task) (currentTime : Int)
    (hfwd : ∀ e ∈ scheduleLoop ops endTime tasks currentTime, e.startTime ≤ e.endTime) :
    (∀ e ∈ scheduleLoop ops endTime tasks currentTime, currentTime ≤ e.startTime) ∧
      List.Pairwise (fun a b : ScheduleEntry F => a.endTime < b.startTime)
        (scheduleLoop ops endTime tasks currentTime) := by
  induction tasks generalizing currentTime with
  | nil => simp [scheduleLoop]
  | cons task rest ih =>
    simp only [scheduleLoop] at hfwd ⊢
    split at hfwd
    · rename_i taskEndTime hclip
      split_ifs at hfwd ⊢ with h1 h2 h3
      · refine ⟨?_, List.pairwise_singleton _ _⟩
        intro e he
        rw [List.mem_singleton.mp he]
      · have hself : currentTime ≤ taskEndTime :=
          hfwd _ (List.mem_cons_self _ _)
        obtain ⟨ibounds, ipair⟩ := ih (taskEndTime + 15 * 60000)
          (fun e he => hfwd e (List.mem_cons_of_mem _ he))
        refine ⟨?_, ?_⟩
        · intro e he
          rcases List.mem_cons.mp he with rfl | he
          · exact le_refl _
          · have := ibounds e he
            omega
        · rw [List.pairwise_cons]
          refine ⟨?_, ipair⟩
          intro e he
          have := ibounds e he
          show taskEndTime < e.startTime
          omega
      · simp
      · exact ih currentTime hfwd
    · rename_i hclip
      split_ifs at hfwd ⊢ with h3
      · simp
      · exact ih currentTime hfwd

/-- No entry runs backwards when adding a duration computed from a non-negative estimate
never gives an earlier instant. -/
theorem scheduleLoop_forward {F : Type} (ops : NumberOps F) (endTime : Int)
    (tasks : List Task) (currentTime : Int)
    (hops : ∀ (c : Int) (x : Rat) (ms : Int), 0 ≤ x →
      ops.timeClip (ops.add (ops.ofRat c)
        (ops.mul (ops.mul (ops.ofRat x) (ops.ofRat 60)) (ops.ofRat 60000))) = some ms →
      c ≤ ms)
    (hest : ∀ task ∈ tasks, 0 ≤ task.estimatedHours) :
    ∀ e ∈ scheduleLoop ops endTime tasks currentTime, e.startTime ≤ e.endTime := by
  intro e he
  obtain ⟨_, _, hdur, _⟩ := scheduleLoop_layout ops endTime tasks currentTime
  obtain ⟨task, ht, h1, h2, h3⟩ := hdur e he
  rw [h2] at h3
  exact hops e.startTime e.estimatedHours e.endTime
    (by rw [h1]; exact orOne_nonneg (hest task ht)) h3

/-! ## Example documents -/

/-- The task of the specification's example: in progress, manual progress 40, one completed
subtask and one at 50. -/
def priorityTask : Task :=
  { newTask "ana" [
      { _id := "s1", completed := true, completedAt := some 3, progress := 0,
        estimatedHours := 0, actualHours := 0 },
      { _id := "s2", completed := false, completedAt := none, progress := 50,
        estimatedHours := 0, actualHours := 0 }] with
    status := "in-progress"
    progress := 40 }


/-- A task of `ana` with one closed session of 90 minutes. -/
def ninetyMinuteTask : Task :=
  { newTask "ana" [] with
    status := "in-progress"
    actualHours := 3 / 2
    timeTracking :=
      { started := false
        startTime := some 0
        sessions := [{ startTime := 0, endTime := some 5400000, duration := 5400000 }] } }

/-- A task of `ana` that tracked ten seconds and was started again by a clock that had gone
back to 5000. -/
def skewedTask : Task :=
  { newTask "ana" [] with
    status := "in-progress"
    actualHours := 1 / 360
    timeTracking :=
      { started := true
        startTime := some 5000
        sessions := [{ startTime := 0, endTime := some 10000, duration := 10000 },
                     { startTime := 5000, endTime := none, duration := 0 }] } }


/-- A completed task of user `ana`. -/
def doneTask : Task :=
  { newTask "ana" [] with status := "completed", completedAt := some 7, progress := 100 }

/-- A task of `ana` whose first subtask was stored, by a write that runs no `save` hook,
with `completed` true and `completedAt` unset. -/
def looseTask : Task :=
  newTask "ana" [
    { _id := "s1", completed := true, completedAt := none, progress := 0,
      estimatedHours := 0, actualHours := 0 },
    { _id := "s2", completed := false, completedAt := none, progress := 0,
      estimatedHours := 0, actualHours := 0 }]

/-- A task of `ana` that was due at instant 1000. -/
def dueTask : Task :=
  { newTask "ana" [] with dueDate := some 1000, status := "in-progress" }

/-- Four pending tasks of `ana`, estimated at two hours, nothing, six hours and half an
hour, in the order the sort left them. -/
def pendingTasks : List Task :=
  [{ newTask "ana" [] with estimatedHours := 2 },
   newTask "ana" [],
   { newTask "ana" [] with estimatedHours := 6 },
   { newTask "ana" [] with estimatedHours := 1 / 2 }]

theorem skewedTask_valid : validate skewedTask = true := by
  simp [validate, skewedTask, newTask, statusEnum, validSubtask]

/-! ## Claims -/

/-- C1: starting from a newly created task (status `todo`, `completedAt` unset), after any
sequence of `setTaskProgress`, `setSubtaskProgress`, `startTimeTracking`, `stopTimeTracking`
and `updateTimeEstimates` requests, each saved through the pre-save hooks, a task is stored
and its status is `completed` if and only if its `completedAt` is set. -/
theorem completion_invariant_reachable (t0 : Task) (hs : t0.status = "todo")
    (hc : t0.completedAt = none) (ops : List Op) :
    ∃ t, runAll ops (some t0) = some t ∧ (t.status = "completed" ↔ t.completedAt ≠ none) := by
  obtain ⟨t, ht⟩ := runAll_some ops t0
  refine ⟨t, ht, ?_⟩
  have hinv : ∀ u, some t0 = some u → CompletionInv u := by
    intro u hu
    cases hu
    simp [CompletionInv, hs, hc]
  exact runAll_inv ops (some t0) hinv t ht

/-- Witness of C1: a new task of `ana` is completed, reopened and tracked. -/
theorem completion_invariant_reachable_witness :
    ∃ t, runAll [Op.setTaskProgress "ana" 100 5, Op.setTaskProgress "ana" 0 6,
        Op.startTimeTracking "ana" 7, Op.setTaskProgress "ana" 100 8]
        (some (newTask "ana" [])) = some t ∧
      (t.status = "completed" ↔ t.completedAt ≠ none) :=
  completion_invariant_reachable (newTask "ana" []) rfl rfl _

/-- C2 (the code departs from the claim): toggling a `todo` task whose `completedAt` is unset
succeeds and stores status `completed` with `completedAt` still unset, because the write
goes through `findByIdAndUpdate` and the pre-save hook never runs. -/
theorem toggleTaskCompletion_leaves_completedAt_unset :
    CompletionInv (newTask "ana" []) ∧
      toggleTaskCompletion true (some (newTask "ana" [])) "ana" =
        ⟨.ok "Task marked as completed",
          some { newTask "ana" [] with status := "completed" }⟩ ∧
      ¬ CompletionInv { newTask "ana" [] with status := "completed" } := by
  decide

/-- C3: a progress below 0 or above 100 makes `updateTaskProgress` and
`updateSubtaskProgress` answer 400 "Progress must be between 0 and 100" and leaves the
stored task as it was, for every task, subtask id and caller. -/
theorem progress_out_of_range_rejected (found : Option Task) (userId subtaskId : String)
    (p now : Int) (h : p < 0 ∨ p > 100) :
    updateTaskProgress found userId p now =
        ⟨.fail 400 "Progress must be between 0 and 100", found⟩ ∧
      updateSubtaskProgress found userId subtaskId p now =
        ⟨.fail 400 "Progress must be between 0 and 100", found⟩ := by
  unfold updateTaskProgress updateSubtaskProgress
  simp [h]

/-- Witness of C3: progress 101 on the completed task of `ana`. -/
theorem progress_out_of_range_rejected_witness :
    ((101 : Int) < 0 ∨ (101 : Int) > 100) ∧
      updateTaskProgress (some doneTask) "ana" 101 9 =
        ⟨.fail 400 "Progress must be between 0 and 100", some doneTask⟩ ∧
      updateSubtaskProgress (some doneTask) "ana" "s1" 101 9 =
        ⟨.fail 400 "Progress must be between 0 and 100", some doneTask⟩ :=
  ⟨by decide, progress_out_of_range_rejected (some doneTask) "ana" "s1" 101 9 (by decide)⟩

/-- C4: for a task owned by the caller and `p` in [0,100], `setTaskProgress(p)` succeeds
whenever the stored task passes the schema validators, and every successful call stores
`progress = p` and the status `todo` if `p = 0`, `completed` if `p = 100`, `in-progress` if
`0 < p < 100` and the status was `todo`, and the previous status otherwise. -/
theorem setTaskProgress_sets_progress_and_status (task : Task) (userId : String) (p now : Int)
    (hown : task.assignedTo = userId) (h0 : 0 ≤ p) (h100 : p ≤ 100) :
    (validate task = true → (updateTaskProgress (some task) userId p now).response.isOk = true) ∧
      ((updateTaskProgress (some task) userId p now).response.isOk = true →
        ∃ t, (updateTaskProgress (some task) userId p now).doc = some t ∧ t.progress = p ∧
          t.status =
            if p = 0 then "todo" else if p = 100 then "completed"
            else if task.status = "todo" then "in-progress" else task.status) := by
  subst hown
  rw [updateTaskProgress_owner task p now h0 h100]
  constructor
  · intro hv
    obtain ⟨t, ht⟩ := @save_isSome task _ now (validate_autoStatus h0 h100 hv)
    rw [ht]; rfl
  · intro hok
    split at hok
    · rename_i saved hs
      refine ⟨saved, rfl, ?_, ?_⟩
      · rw [save_progress hs, autoStatus_progress]
      · rw [save_status hs, autoStatus_status _ _ h0]
    · cases hok

/-- Witness of C4: progress 40 on a new task of `ana` succeeds. -/
theorem setTaskProgress_sets_progress_and_status_witness :
    (updateTaskProgress (some (newTask "ana" [])) "ana" 40 9).response.isOk = true ∧
      ∃ t, (updateTaskProgress (some (newTask "ana" [])) "ana" 40 9).doc = some t ∧
        t.progress = 40 ∧ t.status = "in-progress" :=
  have h := setTaskProgress_sets_progress_and_status (newTask "ana" []) "ana" 40 9 rfl
    (by decide) (by decide)
  ⟨h.1 (by decide), h.2 (h.1 (by decide))⟩

/-- C5, counterexample: progress 50 on a completed task succeeds and the stored task is
still `completed`, with its `completedAt` kept. -/
theorem setTaskProgress_below_100_keeps_completed :
    doneTask.status = "completed" ∧
      updateTaskProgress (some doneTask) "ana" 50 9 =
        ⟨.ok "Progress updated successfully",
          some { doneTask with progress := 50, status := "completed", completedAt := some 7 }⟩ := by
  decide

/-- C5, amended: on a completed task owned by the caller and `0 ≤ p < 100`, `setTaskProgress(p)`
succeeds when the stored task passes the validators; a successful call with `p = 0` stores
status `todo` with `completedAt` cleared, and one with `0 < p < 100` stores the progress and
leaves status `completed` and `completedAt` as they were. -/
theorem setTaskProgress_on_completed (task : Task) (userId : String) (p now : Int)
    (hown : task.assignedTo = userId) (hst : task.status = "completed")
    (h0 : 0 ≤ p) (h100 : p < 100) :
    (validate task = true → (updateTaskProgress (some task) userId p now).response.isOk = true) ∧
      ((updateTaskProgress (some task) userId p now).response.isOk = true →
        ∃ t, (updateTaskProgress (some task) userId p now).doc = some t ∧ t.progress = p ∧
          (p = 0 → t.status = "todo" ∧ t.completedAt = none) ∧
          (0 < p → t.status = "completed" ∧ t.completedAt = task.completedAt)) := by
  subst hown
  rw [updateTaskProgress_owner task p now h0 (by omega)]
  constructor
  · intro hv
    obtain ⟨t, ht⟩ := @save_isSome task _ now (validate_autoStatus h0 (by omega) hv)
    rw [ht]; rfl
  · intro hok
    split at hok
    · rename_i saved hs
      refine ⟨saved, rfl, ?_, ?_, ?_⟩
      · rw [save_progress hs, autoStatus_progress]
      · intro hp
        subst hp
        rw [save_status hs, save_completedAt hs]
        simp [autoStatus, preSaveCompletedAt, hst]
      · intro hp
        have h1 : p ≠ 0 := by omega
        have h2 : p ≠ 100 := by omega
        rw [save_status hs, save_completedAt hs]
        simp [autoStatus, preSaveCompletedAt, hst, h1, h2]
    · cases hok

/-- Witness of C5 (amended): progress 0 on the completed task of `ana` reopens it. -/
theorem setTaskProgress_on_completed_witness :
    (updateTaskProgress (some doneTask) "ana" 0 9).response.isOk = true ∧
      ∃ t, (updateTaskProgress (some doneTask) "ana" 0 9).doc = some t ∧ t.progress = 0 ∧
        ((0 : Int) = 0 → t.status = "todo" ∧ t.completedAt = none) ∧
        ((0 : Int) < 0 → t.status = "completed" ∧ t.completedAt = doneTask.completedAt) :=
  have h := setTaskProgress_on_completed doneTask "ana" 0 9 rfl rfl (by decide) (by decide)
  ⟨h.1 (by decide), h.2 (h.1 (by decide))⟩

/-- C6 (the code departs from the claim): for a single session of 5,400,000 ms the virtual
`totalTimeSpent` is 0, not 1.5: the divisor is `1000 * 60 * 60 * 100`, so the sum is divided
by a hundred hours before it is rounded. -/
theorem totalTimeSpent_ninety_minutes :
    sumDurations ninetyMinuteTask.timeTracking.sessions = 5400000 ∧
      totalTimeSpent ninetyMinuteTask = 0 ∧ totalTimeSpent ninetyMinuteTask ≠ 3 / 2 := by
  have h : totalTimeSpent ninetyMinuteTask = 0 := by
    simp [totalTimeSpent, ninetyMinuteTask, newTask, sumDurations, durationStep, orZero,
      mathRound]
    norm_num [Int.floor_eq_iff]
  refine ⟨by decide, h, ?_⟩
  rw [h]; norm_num

/-- C7, counterexample: the clock reads 4000 when the session started at 5000 is stopped;
the request succeeds and the stored session has duration -1000. -/
theorem stopTimeTracking_stores_negative_duration :
    stopTimeTracking (some skewedTask) "ana" 4000 =
      ⟨.ok "Time tracking stopped",
        some { skewedTask with
          actualHours := 1 / 400
          timeTracking :=
            { started := false
              startTime := some 5000
              sessions := [{ startTime := 0, endTime := some 10000, duration := 10000 },
                           { startTime := 5000, endTime := some 4000, duration := -1000 }] } }⟩ := by
  simp [stopTimeTracking, stopSession, skewedTask, newTask, closeLatestSession, sumDurations,
    durationStep, orZero, save, validate, statusEnum, preSaveSubtasks, preSaveCompletedAt]
  norm_num

/-- C7, amended: when `stopTimeTracking` closes the open session, the stored session has
`endTime = now` and `duration = now - startTime`, without clamping: the duration is
non-negative exactly when the stop time is not earlier than `startTime`. The request succeeds
when the stored task passes the validators and the durations sum to a non-negative total. -/
theorem stopTimeTracking_duration (task : Task) (userId : String) (now : Int)
    (init : List Session) (s : Session) (hown : task.assignedTo = userId)
    (hstarted : task.timeTracking.started = true)
    (hsess : task.timeTracking.sessions = init ++ [s]) (hopen : s.endTime = none) :
    (validate task = true → 0 ≤ sumDurations init + (now - s.startTime) →
        (stopTimeTracking (some task) userId now).response.isOk = true) ∧
      ((stopTimeTracking (some task) userId now).response.isOk = true →
        ∃ t last, (stopTimeTracking (some task) userId now).doc = some t ∧
          t.timeTracking.sessions = init ++ [last] ∧
          last.startTime = s.startTime ∧ last.endTime = some now ∧
          last.duration = now - s.startTime ∧ (0 ≤ last.duration ↔ s.startTime ≤ now)) := by
  subst hown
  have hclose : closeLatestSession task.timeTracking.sessions now =
      init ++ [⟨s.startTime, some now, now - s.startTime⟩] := by
    rw [hsess, closeLatestSession_open init s now hopen]
  rw [stopTimeTracking_owner task now hstarted]
  constructor
  · intro hv hsum
    have hq : 0 ≤ sumDurations (closeLatestSession task.timeTracking.sessions now) := by
      rw [hclose, sumDurations_concat]; exact hsum
    obtain ⟨t, ht⟩ := @save_isSome task _ now (validate_stopSession task now hv hq)
    rw [ht]; rfl
  · intro hok
    split at hok
    · rename_i saved hs
      refine ⟨saved, ⟨s.startTime, some now, now - s.startTime⟩, rfl, ?_, rfl, rfl, rfl, ?_⟩
      · rw [save_timeTracking hs]
        simp only [stopSession]
        exact hclose
      · show 0 ≤ now - s.startTime ↔ s.startTime ≤ now
        omega
    · cases hok

/-- Witness of C7 (amended): the skewed session of `ana` stopped at 4000. -/
theorem stopTimeTracking_duration_witness :
    (stopTimeTracking (some skewedTask) "ana" 4000).response.isOk = true ∧
      ∃ t last, (stopTimeTracking (some skewedTask) "ana" 4000).doc = some t ∧
        t.timeTracking.sessions =
          [{ startTime := 0, endTime := some 10000, duration := 10000 }] ++ [last] ∧
        last.startTime = 5000 ∧ last.endTime = some 4000 ∧
        last.duration = 4000 - 5000 ∧ (0 ≤ last.duration ↔ (5000 : Int) ≤ 4000) :=
  have h := stopTimeTracking_duration skewedTask "ana" 4000
    [{ startTime := 0, endTime := some 10000, duration := 10000 }]
    { startTime := 5000, endTime := none, duration := 0 } rfl rfl rfl rfl
  ⟨h.1 skewedTask_valid (by decide), h.2 (h.1 skewedTask_valid (by decide))⟩

/-- C8: for a task owned by the caller that is not tracking and whose sessions are all closed,
a start at `T0` and a stop at `T1 ≥ T0` both succeed when the task passes the validators and
its durations have a non-negative sum; whenever both succeed, exactly one closed session
`(T0, T1, T1 - T0)` is appended and `actualHours` is the sum of all session durations divided
by 3,600,000. On a fresh task 90 minutes give duration 5,400,000 and `actualHours` 1.5, and
two cycles give `actualHours` equal to the sum of both intervals. -/
theorem session_accounting :
    (∀ (task : Task) (userId : String) (T0 T1 : Int),
      task.assignedTo = userId → task.timeTracking.started = false →
      (∀ s ∈ task.timeTracking.sessions, s.endTime ≠ none) → T0 ≤ T1 →
      (validate task = true → 0 ≤ sumDurations task.timeTracking.sessions →
        (startTimeTracking (some task) userId T0).response.isOk = true ∧
        (stopTimeTracking (startTimeTracking (some task) userId T0).doc userId T1).response.isOk
          = true) ∧
      ((startTimeTracking (some task) userId T0).response.isOk = true →
        (stopTimeTracking (startTimeTracking (some task) userId T0).doc userId T1).response.isOk
          = true →
        ∃ t, (stopTimeTracking (startTimeTracking (some task) userId T0).doc userId T1).doc
            = some t ∧
          t.timeTracking.sessions = task.timeTracking.sessions ++ [⟨T0, some T1, T1 - T0⟩] ∧
          t.actualHours = ((sumDurations t.timeTracking.sessions : Int) : Rat) / 3600000)) ∧
    (∀ (owner : String) (T0 : Int),
      ∃ t, runAll [Op.startTimeTracking owner T0, Op.stopTimeTracking owner (T0 + 90 * 60 * 1000)]
          (some (newTask owner [])) = some t ∧
        t.timeTracking.sessions = [⟨T0, some (T0 + 90 * 60 * 1000), 5400000⟩] ∧
        t.actualHours = 3 / 2) ∧
    (∀ (owner : String) (T0 T1 T2 T3 : Int), T0 ≤ T1 → T2 ≤ T3 →
      ∃ t, runAll [Op.startTimeTracking owner T0, Op.stopTimeTracking owner T1,
            Op.startTimeTracking owner T2, Op.stopTimeTracking owner T3]
          (some (newTask owner [])) = some t ∧
        t.timeTracking.sessions = [⟨T0, some T1, T1 - T0⟩, ⟨T2, some T3, T3 - T2⟩] ∧
        t.actualHours = (((T1 - T0) + (T3 - T2) : Int) : Rat) / 3600000) := by
  refine ⟨?_, ?_, ?_⟩
  · intro task userId T0 T1 hown hnot _ hle
    subst hown
    constructor
    · intro hv hsum
      exact start_stop_succeeds task T0 T1 hnot hv (by omega)
    · intro hok1 hok2
      obtain ⟨t, ht, hsess, hact, _⟩ := start_stop_cycle task T0 T1 hnot hok1 hok2
      exact ⟨t, ht, hsess, hact⟩
  · intro owner T0
    obtain ⟨t, ht, hsess, hact, _⟩ := runAll_cycle (newTask owner []) T0 (T0 + 90 * 60 * 1000)
      rfl (newTask_valid owner) (le_refl 0) (by omega)
    have hsess2 : t.timeTracking.sessions = [⟨T0, some (T0 + 90 * 60 * 1000), 5400000⟩] := by
      rw [hsess]
      simp [newTask]
    refine ⟨t, ht, hsess2, ?_⟩
    rw [hact, hsess2]
    norm_num [sumDurations, durationStep, orZero_eq]
  · intro owner T0 T1 T2 T3 h01 h23
    obtain ⟨t1, ht1, hsess1, _, hnot1, hown1, hv1⟩ := runAll_cycle (newTask owner []) T0 T1
      rfl (newTask_valid owner) (le_refl 0) h01
    have hs1 : t1.timeTracking.sessions = [⟨T0, some T1, T1 - T0⟩] := by
      rw [hsess1]; rfl
    have hsum1 : 0 ≤ sumDurations t1.timeTracking.sessions := by
      rw [hs1]
      simp only [sumDurations, List.foldl, durationStep, orZero_eq]
      omega
    obtain ⟨t, ht, hsess, hact, _⟩ := runAll_cycle t1 T2 T3 hnot1 hv1 hsum1 h23
    have hown2 : t1.assignedTo = owner := hown1
    rw [hown2] at ht
    have hs2 : t.timeTracking.sessions = [⟨T0, some T1, T1 - T0⟩, ⟨T2, some T3, T3 - T2⟩] := by
      rw [hsess, hs1]; rfl
    refine ⟨t, ?_, hs2, ?_⟩
    · have hsplit : runAll [Op.startTimeTracking owner T0, Op.stopTimeTracking owner T1,
            Op.startTimeTracking owner T2, Op.stopTimeTracking owner T3]
          (some (newTask owner [])) =
          runAll [Op.startTimeTracking owner T2, Op.stopTimeTracking owner T3]
            (runAll [Op.startTimeTracking owner T0, Op.stopTimeTracking owner T1]
              (some (newTask owner []))) := rfl
      rw [hsplit]
      have ht1b : runAll [Op.startTimeTracking owner T0, Op.stopTimeTracking owner T1]
          (some (newTask owner [])) = some t1 := ht1
      rw [ht1b]
      exact ht
    · rw [hact, hs2]
      simp only [sumDurations, List.foldl, durationStep, orZero_eq]
      norm_num

/-- Witness of C8: ten more minutes on the task of `ana` that already tracked ninety. -/
theorem session_accounting_witness :
    (startTimeTracking (some ninetyMinuteTask) "ana" 6000000).response.isOk = true ∧
      (stopTimeTracking (startTimeTracking (some ninetyMinuteTask) "ana" 6000000).doc "ana"
        6600000).response.isOk = true ∧
      ∃ t, (stopTimeTracking (startTimeTracking (some ninetyMinuteTask) "ana" 6000000).doc "ana"
          6600000).doc = some t ∧
        t.timeTracking.sessions =
          ninetyMinuteTask.timeTracking.sessions ++ [⟨6000000, some 6600000, 6600000 - 6000000⟩] ∧
        t.actualHours = ((sumDurations t.timeTracking.sessions : Int) : Rat) / 3600000 :=
  have h := session_accounting.1 ninetyMinuteTask "ana" 6000000 6600000 rfl rfl
    (by decide) (by decide)
  have hok := h.1 (by simp [validate, ninetyMinuteTask, newTask, statusEnum]; norm_num)
    (by decide)
  ⟨hok.1, hok.2, h.2 hok.1 hok.2⟩

/-- C9: `completionPercentage` is 100 for every task whose status is `completed`, whatever
its manual progress and subtasks are. -/
theorem completionPercentage_completed (t : Task) (h : t.status = "completed") :
    completionPercentage t = 100 := by
  unfold completionPercentage
  rw [if_pos h]

/-- Witness of C9: the example task, marked completed, with manual progress 40. -/
theorem completionPercentage_completed_witness :
    completionPercentage { priorityTask with status := "completed" } = 100 :=
  completionPercentage_completed { priorityTask with status := "completed" } rfl

/-- C10: for every task whose status is not `completed` and whose manual progress is
positive, `completionPercentage` is the manual progress, whatever the subtasks are. -/
theorem completionPercentage_manual_progress (t : Task) (hs : t.status ≠ "completed")
    (hp : 0 < t.progress) : completionPercentage t = t.progress := by
  unfold completionPercentage
  rw [if_neg hs, if_pos hp]

/-- Witness of C10: status `in-progress`, progress 40, one completed subtask and one at 50
give 40. -/
theorem completionPercentage_manual_progress_witness :
    priorityTask.status = "in-progress" ∧ priorityTask.progress = 40 ∧
      priorityTask.subtasks.map (fun s => (s.completed, s.progress)) = [(true, 0), (false, 50)] ∧
      completionPercentage priorityTask = 40 :=
  ⟨rfl, rfl, rfl,
    completionPercentage_manual_progress priorityTask (by decide) (by decide)⟩


/-- C11: for a task whose status is not `completed`, whose manual progress is 0 and whose
subtask list is non-empty, `completionPercentage` is the average over all subtasks of
(100 if completed, else the subtask's progress) rounded by `Math.round`: an integer within
one half of the average, the upper one at a tie. -/
theorem completionPercentage_subtask_average (t : Task) (hs : t.status ≠ "completed")
    (hp : t.progress = 0) (hne : t.subtasks ≠ []) :
    completionPercentage t = mathRound (subtaskAverage t.subtasks) ∧
      subtaskAverage t.subtasks - 1 / 2 < ((completionPercentage t : Int) : Rat) ∧
      ((completionPercentage t : Int) : Rat) ≤ subtaskAverage t.subtasks + 1 / 2 := by
  have hlen : t.subtasks.length > 0 := List.length_pos.mpr hne
  have h : completionPercentage t = mathRound (subtaskAverage t.subtasks) := by
    unfold completionPercentage
    rw [if_neg hs, if_neg (by omega), if_pos hlen]
    simp only [subtaskAverage, foldl_subtaskProgressStep, zero_add]
  rw [h]
  exact ⟨rfl, lt_mathRound _, mathRound_le _⟩

/-- Witness of C11: the example task with manual progress 0, one completed subtask and one
at 50, gives 75. -/
theorem completionPercentage_subtask_average_witness :
    completionPercentage { priorityTask with progress := 0 } = 75 :=
  (completionPercentage_subtask_average { priorityTask with progress := 0 }
    (by decide) rfl (by decide)).1.trans (by
      simp [subtaskAverage, subtaskContribution, priorityTask, newTask, mathRound]
      norm_num [Int.floor_eq_iff])

/-- C12: with manual progress 0 and no subtasks `completionPercentage` falls back on the
status: 0 for `todo`, 25 for `in-progress`, 100 for `completed`, 0 for any other value. -/
theorem completionPercentage_status_fallback (t : Task) (hp : t.progress = 0)
    (hsub : t.subtasks = []) :
    completionPercentage t =
        (if t.status = "todo" then 0 else if t.status = "in-progress" then 25
          else if t.status = "completed" then 100 else 0) ∧
      (t.status = "todo" → completionPercentage t = 0) ∧
      (t.status = "in-progress" → completionPercentage t = 25) ∧
      (t.status = "completed" → completionPercentage t = 100) ∧
      (t.status ∉ statusEnum → completionPercentage t = 0) := by
  have h : completionPercentage t =
      (if t.status = "todo" then 0 else if t.status = "in-progress" then 25
        else if t.status = "completed" then 100 else 0) := by
    unfold completionPercentage
    rw [hp, hsub]
    by_cases hc : t.status = "completed"
    · simp [hc]
    · simp [hc]
  refine ⟨h, ?_, ?_, ?_, ?_⟩
  · intro hs; rw [h, hs]; decide
  · intro hs; rw [h, hs]; decide
  · intro hs; rw [h, hs]; decide
  · intro hs
    simp only [statusEnum, List.mem_cons, List.mem_singleton, not_or, List.mem_nil_iff,
      or_false] at hs
    rw [h, if_neg hs.1, if_neg hs.2.1, if_neg hs.2.2]

/-- Witness of C12: an in-progress task without subtasks and without manual progress
gives 25. -/
theorem completionPercentage_status_fallback_witness :
    completionPercentage { newTask "ana" [] with status := "in-progress" } = 25 :=
  (completionPercentage_status_fallback { newTask "ana" [] with status := "in-progress" }
    rfl rfl).2.2.1 rfl

/-- C13: `efficiency` is `null` exactly when `estimatedHours` or `actualHours` is 0;
otherwise it is `Math.round((estimatedHours / actualHours) * 100)`, the quotient, the product
and the rounding being the ones of JavaScript numbers; and the division is never by zero: the
result is the same whatever `/` gives for a zero divisor. -/
theorem efficiency_null_iff {F : Type} (ops : NumberOps F) (t : Task) :
    (efficiency ops t = none ↔ t.estimatedHours = 0 ∨ t.actualHours = 0) ∧
      (t.estimatedHours ≠ 0 → t.actualHours ≠ 0 →
        efficiency ops t = some (ops.round (ops.mul
          (ops.div (ops.ofRat t.estimatedHours) (ops.ofRat t.actualHours))
          (ops.ofRat 100)))) ∧
      (∀ div2 : F → F → F,
        (∀ (a : F) (r : Rat), r ≠ 0 → div2 a (ops.ofRat r) = ops.div a (ops.ofRat r)) →
        efficiency { ops with div := div2 } t = efficiency ops t) := by
  unfold efficiency
  refine ⟨?_, ?_, ?_⟩
  · split_ifs with h
    · simp [h]
    · simp [h]
  · intro he ha
    rw [if_neg (by simp [he, ha])]
  · intro div2 hdiv
    split_ifs with h
    · rfl
    · have ha : t.actualHours ≠ 0 := fun h0 => h (Or.inr h0)
      simp only [hdiv _ _ ha]

/-- Witness of C13: three hours estimated and one and a half spent give 200, the quotient 2
and the product 200 being exact; no estimate gives `null`. -/
theorem efficiency_null_iff_witness :
    efficiency exactNumbers { ninetyMinuteTask with estimatedHours := 3 } = some 200 ∧
      efficiency exactNumbers ninetyMinuteTask = none :=
  ⟨((efficiency_null_iff exactNumbers { ninetyMinuteTask with estimatedHours := 3 }).2.1
      (by simp) (by simp [ninetyMinuteTask])).trans (by
        simp [exactNumbers, ninetyMinuteTask, mathRound]
        norm_num [Int.floor_eq_iff]),
    (efficiency_null_iff exactNumbers ninetyMinuteTask).1.mpr (Or.inl rfl)⟩

/-- C14: for the owner, `p` in [0,100] and an existing subtask, `setSubtaskProgress` succeeds
when the stored task passes the validators, and after every successful call the targeted
subtask has `progress = p`; if `p = 100` it is completed with `completedAt` set (to `now`);
if `p < 100` and it was completed before, `completed` is false and `completedAt` cleared. -/
theorem setSubtaskProgress_target (task : Task) (userId subtaskId : String) (p now : Int)
    (s : Subtask) (hown : task.assignedTo = userId) (h0 : 0 ≤ p) (h100 : p ≤ 100)
    (hfind : subtaskById task.subtasks subtaskId = some s) :
    (validate task = true →
        (updateSubtaskProgress (some task) userId subtaskId p now).response.isOk = true) ∧
      ((updateSubtaskProgress (some task) userId subtaskId p now).response.isOk = true →
        ∃ t u, (updateSubtaskProgress (some task) userId subtaskId p now).doc = some t ∧
          subtaskById t.subtasks subtaskId = some u ∧ u.progress = p ∧
          (p = 100 → u.completed = true ∧ u.completedAt = some now) ∧
          (p < 100 → s.completed = true → u.completed = false ∧ u.completedAt = none)) := by
  subst hown
  constructor
  · intro hv
    rw [updateSubtaskProgress_owner task subtaskId p now s h0 h100 hfind]
    have hv2 : validate { task with
        subtasks := modifySubtask task.subtasks subtaskId
          (fun s => setSubtaskProgress s p now) } = true := by
      simp only [validate, Bool.and_eq_true, decide_eq_true_eq] at hv ⊢
      obtain ⟨hrest, hsub⟩ := hv
      exact ⟨hrest, all_validSubtask_modifySubtask _ _ _
        (fun x hx => validSubtask_setSubtaskProgress x p now h0 h100 hx) hsub⟩
    obtain ⟨t, ht⟩ := @save_isSome task _ now hv2
    rw [ht]; rfl
  · intro hok
    obtain ⟨t, hdoc, hsave, _, _, _⟩ := updateSubtaskProgress_ok task _ subtaskId p now hok
    obtain ⟨pre, post, hsplit, hpre, hs⟩ := subtaskById_some hfind
    obtain ⟨g, hg1, hg2, hsub⟩ := updateSubtaskProgress_subtasks hsave hsplit hpre hs
    refine ⟨t, g (setSubtaskProgress s p now), hdoc, ?_, ?_, ?_, ?_⟩
    · refine subtaskById_split hsub ?_ ?_
      · intro x hx
        obtain ⟨y, hy, rfl⟩ := List.mem_map.mp hx
        rw [(hg1 y).1]
        exact hpre y hy
      · rw [(hg1 _).1, setSubtaskProgress_id, hs]
    · rw [(hg1 _).2.2.1, setSubtaskProgress_progress]
    · intro hp
      subst hp
      obtain ⟨hc, hat⟩ := setSubtaskProgress_full s now
      have hinv : SubtaskInv (setSubtaskProgress s 100 now) := by
        unfold SubtaskInv; rw [hc, hat]; simp
      rw [hg2 _ hinv]
      exact ⟨hc, hat⟩
    · intro hp hcomp
      obtain ⟨hc, hat⟩ := setSubtaskProgress_reopen s p now hp hcomp
      have hinv : SubtaskInv (setSubtaskProgress s p now) := by
        unfold SubtaskInv; rw [hc, hat]; simp
      rw [hg2 _ hinv]
      exact ⟨hc, hat⟩

/-- Witness of C14: the completed subtask `s1` of the example task is set back to 30. -/
theorem setSubtaskProgress_target_witness :
    (updateSubtaskProgress (some priorityTask) "ana" "s1" 30 9).response.isOk = true ∧
      ∃ t u, (updateSubtaskProgress (some priorityTask) "ana" "s1" 30 9).doc = some t ∧
        subtaskById t.subtasks "s1" = some u ∧ u.progress = 30 ∧
        ((30 : Int) = 100 → u.completed = true ∧ u.completedAt = some 9) ∧
        ((30 : Int) < 100 → true = true → u.completed = false ∧ u.completedAt = none) :=
  have h := setSubtaskProgress_target priorityTask "ana" "s1" 30 9
    { _id := "s1", completed := true, completedAt := some 3, progress := 0,
      estimatedHours := 0, actualHours := 0 } rfl (by decide) (by decide) (by decide)
  ⟨h.1 (by decide), h.2 (h.1 (by decide))⟩

/-- C15, counterexample: progress 50 on subtask `s2` succeeds and the other subtask `s1`,
stored as completed without `completedAt`, gets `completedAt` from the pre-save hook. -/
theorem setSubtaskProgress_changes_other_subtask :
    updateSubtaskProgress (some looseTask) "ana" "s2" 50 9 =
      ⟨.ok "Subtask progress updated successfully",
        some (newTask "ana" [
          { _id := "s1", completed := true, completedAt := some 9, progress := 0,
            estimatedHours := 0, actualHours := 0 },
          { _id := "s2", completed := false, completedAt := none, progress := 50,
            estimatedHours := 0, actualHours := 0 }])⟩ := by
  decide

/-- C15, amended: after every successful `setSubtaskProgress` the parent task's own fields
(status, progress, completedAt, estimatedHours, actualHours, timeTracking) are unchanged,
and every subtask other than the targeted one keeps its place and all its fields but
`completedAt`; its `completedAt` is kept too when it agreed with `completed` before the
call, so the other subtasks are unchanged when they all satisfy the subtask invariant. -/
theorem setSubtaskProgress_frame (task : Task) (userId subtaskId : String) (p now : Int)
    (pre post : List Subtask) (s : Subtask) (hsplit : task.subtasks = pre ++ s :: post)
    (hpre : ∀ x ∈ pre, x._id ≠ subtaskId) (hs : s._id = subtaskId)
    (hok : (updateSubtaskProgress (some task) userId subtaskId p now).response.isOk = true) :
    ∃ t pre2 u post2, (updateSubtaskProgress (some task) userId subtaskId p now).doc = some t ∧
      t.subtasks = pre2 ++ u :: post2 ∧
      List.Forall₂ OtherKept pre pre2 ∧ List.Forall₂ OtherKept post post2 ∧
      ((∀ x ∈ pre ++ post, SubtaskInv x) → pre2 = pre ∧ post2 = post) ∧
      t.status = task.status ∧ t.progress = task.progress ∧
      t.completedAt = task.completedAt ∧ t.estimatedHours = task.estimatedHours ∧
      t.actualHours = task.actualHours ∧ t.timeTracking = task.timeTracking := by
  obtain ⟨t, hdoc, hsave, _, _, _⟩ := updateSubtaskProgress_ok task userId subtaskId p now hok
  obtain ⟨g, hg1, hg2, hsub⟩ := updateSubtaskProgress_subtasks hsave hsplit hpre hs
  have hkept : ∀ l : List Subtask, List.Forall₂ OtherKept l (l.map g) := fun l =>
    List.forall₂_map_right_iff.mpr (List.forall₂_same.mpr (fun x _ => hg1 x))
  have hfix : ∀ l : List Subtask, (∀ x ∈ l, SubtaskInv x) → l.map g = l := by
    intro l hl
    induction l with
    | nil => rfl
    | cons a l ih =>
      rw [List.map_cons, hg2 a (hl a (List.mem_cons_self a l)),
        ih (fun x hx => hl x (List.mem_cons_of_mem a hx))]
  refine ⟨t, pre.map g, g (setSubtaskProgress s p now), post.map g, hdoc, hsub, hkept pre,
    hkept post, ?_, by rw [save_status hsave], by rw [save_progress hsave], ?_,
    by rw [save_estimatedHours hsave], by rw [save_actualHours hsave],
    by rw [save_timeTracking hsave]⟩
  · intro hall
    exact ⟨hfix pre (fun x hx => hall x (List.mem_append_left post hx)),
      hfix post (fun x hx => hall x (List.mem_append_right pre hx))⟩
  · rw [save_completedAt_of_status hsave rfl]

/-- Witness of C15 (amended): progress 80 on subtask `s2` of the example task. -/
theorem setSubtaskProgress_frame_witness :
    ∃ t pre2 u post2, (updateSubtaskProgress (some priorityTask) "ana" "s2" 80 9).doc = some t ∧
      t.subtasks = pre2 ++ u :: post2 ∧
      List.Forall₂ OtherKept
        [{ _id := "s1", completed := true, completedAt := some 3, progress := 0,
           estimatedHours := 0, actualHours := 0 }] pre2 ∧
      List.Forall₂ OtherKept [] post2 ∧
      ((∀ x ∈ [{ _id := "s1", completed := true, completedAt := some 3, progress := 0,
                 estimatedHours := 0, actualHours := 0 }] ++ [], SubtaskInv x) →
        pre2 = [{ _id := "s1", completed := true, completedAt := some 3, progress := 0,
                  estimatedHours := 0, actualHours := 0 }] ∧ post2 = []) ∧
      t.status = priorityTask.status ∧ t.progress = priorityTask.progress ∧
      t.completedAt = priorityTask.completedAt ∧
      t.estimatedHours = priorityTask.estimatedHours ∧
      t.actualHours = priorityTask.actualHours ∧
      t.timeTracking = priorityTask.timeTracking :=
  setSubtaskProgress_frame priorityTask "ana" "s2" 80 9
    [{ _id := "s1", completed := true, completedAt := some 3, progress := 0,
       estimatedHours := 0, actualHours := 0 }] []
    { _id := "s2", completed := false, completedAt := none, progress := 50,
      estimatedHours := 0, actualHours := 0 }
    rfl (by decide) rfl (by decide)

/-- C16: after every save in which the subtask list was modified, every subtask of the
stored task has `completed` true exactly when its `completedAt` is set: for `save` itself,
for each of the five requests whenever the stored list differs from the one before, and for
a task created with subtasks. -/
theorem subtask_invariant_after_modifying_save :
    (∀ (orig cur t : Task) (now : Int), save orig cur now = some t →
        cur.subtasks ≠ orig.subtasks →
        ∀ s ∈ t.subtasks, (s.completed = true ↔ s.completedAt ≠ none)) ∧
      (∀ (op : Op) (task t : Task), (op.run (some task)).doc = some t →
        t.subtasks ≠ task.subtasks →
        ∀ s ∈ t.subtasks, (s.completed = true ↔ s.completedAt ≠ none)) ∧
      (∀ (userId : String) (assignedTo : Option String) (dueDate : Option Int)
        (subtasks : List (String × Bool)) (now : Int),
        ∀ s ∈ (createTask userId assignedTo dueDate (some subtasks) now).subtasks,
          (s.completed = true ↔ s.completedAt ≠ none)) := by
  refine ⟨?_, ?_, ?_⟩
  · intro orig cur t now hsave hmod s hs
    exact save_subtaskInv hsave hmod s hs
  · intro op task t hrun hne s hs
    rcases Op.run_saved op task t hrun with rfl | ⟨cur, now, hsave⟩
    · exact absurd rfl hne
    · have hmod : cur.subtasks ≠ task.subtasks := by
        intro heq
        apply hne
        rw [save_subtasks hsave, if_neg (by simp [heq]), heq]
      exact save_subtaskInv hsave hmod s hs
  · intro userId assignedTo dueDate subtasks now s hs
    simp only [createTask] at hs
    obtain ⟨x, _, rfl⟩ := List.mem_map.mp hs
    exact preSaveSubtask_inv now x

/-- Witness of C16: the request that modifies subtask `s2` of a task whose subtask `s1`
disagreed leaves both subtasks satisfying the invariant. -/
theorem subtask_invariant_after_modifying_save_witness :
    ∀ s ∈ [({ _id := "s1", completed := true, completedAt := some 9, progress := 0,
              estimatedHours := 0, actualHours := 0 } : Subtask),
           { _id := "s2", completed := false, completedAt := none, progress := 50,
             estimatedHours := 0, actualHours := 0 }],
      (s.completed = true ↔ s.completedAt ≠ none) :=
  subtask_invariant_after_modifying_save.2.1 (Op.setSubtaskProgress "ana" "s2" 50 9) looseTask
    (newTask "ana" [
      { _id := "s1", completed := true, completedAt := some 9, progress := 0,
        estimatedHours := 0, actualHours := 0 },
      { _id := "s2", completed := false, completedAt := none, progress := 50,
        estimatedHours := 0, actualHours := 0 }])
    (by decide) (by decide)


/-- C17: for the owner, `startTimeTracking` on a task that is already tracking and
`stopTimeTracking` on a task that is not tracking answer 400 ("Time tracking already
started" / "Time tracking not started") and leave the whole stored task as it was. -/
theorem tracking_precondition_violation_unchanged (task : Task) (userId : String) (now : Int)
    (hown : task.assignedTo = userId) :
    (task.timeTracking.started = true →
        startTimeTracking (some task) userId now =
          ⟨.fail 400 "Time tracking already started", some task⟩) ∧
      (task.timeTracking.started = false →
        stopTimeTracking (some task) userId now =
          ⟨.fail 400 "Time tracking not started", some task⟩) := by
  subst hown
  constructor
  · intro h
    simp [startTimeTracking, h]
  · intro h
    simp [stopTimeTracking, h]

/-- Witness of C17: a second start on the tracking task and a stop on the stopped task. -/
theorem tracking_precondition_violation_unchanged_witness :
    startTimeTracking (some skewedTask) "ana" 6000 =
        ⟨.fail 400 "Time tracking already started", some skewedTask⟩ ∧
      stopTimeTracking (some ninetyMinuteTask) "ana" 6000 =
        ⟨.fail 400 "Time tracking not started", some ninetyMinuteTask⟩ :=
  ⟨(tracking_precondition_violation_unchanged skewedTask "ana" 6000 rfl).1 rfl,
    (tracking_precondition_violation_unchanged ninetyMinuteTask "ana" 6000 rfl).2 rfl⟩

/-- C18: for a task of the caller that is not tracking, `startTimeTracking` at `now` succeeds
when the stored task passes the validators, and every successful call stores
`started = true`, `startTime = now`, the former sessions followed by exactly one new session
with `startTime = now` and no `endTime`, and a status that changed (to `in-progress`) if and
only if it was `todo`. -/
theorem startTimeTracking_effect (task : Task) (userId : String) (now : Int)
    (hown : task.assignedTo = userId) (hnot : task.timeTracking.started = false) :
    (validate task = true → (startTimeTracking (some task) userId now).response.isOk = true) ∧
      ((startTimeTracking (some task) userId now).response.isOk = true →
        ∃ t, (startTimeTracking (some task) userId now).doc = some t ∧
          t.timeTracking.started = true ∧ t.timeTracking.startTime = some now ∧
          t.timeTracking.sessions = task.timeTracking.sessions ++ [⟨now, none, 0⟩] ∧
          t.status = (if task.status = "todo" then "in-progress" else task.status) ∧
          (t.status ≠ task.status ↔ task.status = "todo")) := by
  subst hown
  rw [startTimeTracking_owner task now hnot]
  constructor
  · intro hv
    obtain ⟨t, ht⟩ := @save_isSome task _ now (validate_startSession task now hv)
    rw [ht]; rfl
  · intro hok
    split at hok
    · rename_i saved hs
      have htt : saved.timeTracking =
          ⟨true, some now, task.timeTracking.sessions ++ [⟨now, none, 0⟩]⟩ := by
        rw [save_timeTracking hs, startSession_timeTracking]
      have hst : saved.status =
          (if task.status = "todo" then "in-progress" else task.status) := by
        rw [save_status hs, startSession_status]
      refine ⟨saved, rfl, by rw [htt], by rw [htt], by rw [htt], hst, ?_⟩
      rw [hst]
      by_cases htodo : task.status = "todo"
      · simp [htodo]
      · simp [htodo]
    · cases hok

/-- Witness of C18: tracking starts at 6,000,000 on the task that tracked ninety minutes. -/
theorem startTimeTracking_effect_witness :
    (startTimeTracking (some ninetyMinuteTask) "ana" 6000000).response.isOk = true ∧
      ∃ t, (startTimeTracking (some ninetyMinuteTask) "ana" 6000000).doc = some t ∧
        t.timeTracking.started = true ∧ t.timeTracking.startTime = some 6000000 ∧
        t.timeTracking.sessions =
          ninetyMinuteTask.timeTracking.sessions ++ [⟨6000000, none, 0⟩] ∧
        t.status = (if ninetyMinuteTask.status = "todo" then "in-progress"
          else ninetyMinuteTask.status) ∧
        (t.status ≠ ninetyMinuteTask.status ↔ ninetyMinuteTask.status = "todo") :=
  have h := startTimeTracking_effect ninetyMinuteTask "ana" 6000000 rfl rfl
  have hv : validate ninetyMinuteTask = true := by
    simp [validate, ninetyMinuteTask, newTask, statusEnum]
    norm_num
  ⟨h.1 hv, h.2 (h.1 hv)⟩

/-- C19: in every state reached from a newly created task (not tracking, no sessions) by any
sequence of the five requests, successful or failing, `timeTracking.started` is true if and
only if the session list is non-empty and its most recent session has no `endTime`. -/
theorem started_iff_latest_session_open (t0 : Task) (hstarted : t0.timeTracking.started = false)
    (hsess : t0.timeTracking.sessions = []) (ops : List Op) :
    ∃ t, runAll ops (some t0) = some t ∧
      (t.timeTracking.started = true ↔
        ∃ last, t.timeTracking.sessions.getLast? = some last ∧ last.endTime = none) := by
  obtain ⟨t, ht⟩ := runAll_some ops t0
  have h0 : TrackingInv t0.timeTracking := by
    refine ⟨fun h => ?_, fun _ => ?_⟩
    · rw [hstarted] at h; cases h
    · rw [hsess]; simp
  exact ⟨t, ht, trackingInv_started_iff
    (runAll_preserves (fun u => TrackingInv u.timeTracking) Op.run_trackingInv ops t0 t h0 ht)⟩

/-- Witness of C19: start, a second start that fails, stop, a second stop that fails, and a
third start, on a new task of `ana`. -/
theorem started_iff_latest_session_open_witness :
    ∃ t, runAll [Op.startTimeTracking "ana" 10, Op.startTimeTracking "ana" 20,
        Op.setTaskProgress "ana" 30 25, Op.stopTimeTracking "ana" 40,
        Op.stopTimeTracking "ana" 50, Op.startTimeTracking "ana" 60]
        (some (newTask "ana" [])) = some t ∧
      (t.timeTracking.started = true ↔
        ∃ last, t.timeTracking.sessions.getLast? = some last ∧ last.endTime = none) :=
  started_iff_latest_session_open (newTask "ana" []) rfl rfl _

/-- C20: in every state reached from a newly created task (not tracking, no sessions) by any
sequence of the five requests, at most one session has no `endTime`. -/
theorem at_most_one_open_session (t0 : Task) (hstarted : t0.timeTracking.started = false)
    (hsess : t0.timeTracking.sessions = []) (ops : List Op) :
    ∃ t, runAll ops (some t0) = some t ∧ openSessions t.timeTracking.sessions ≤ 1 := by
  obtain ⟨t, ht⟩ := runAll_some ops t0
  have h0 : TrackingInv t0.timeTracking := by
    refine ⟨fun h => ?_, fun _ => ?_⟩
    · rw [hstarted] at h; cases h
    · rw [hsess]; simp
  exact ⟨t, ht, trackingInv_openSessions
    (runAll_preserves (fun u => TrackingInv u.timeTracking) Op.run_trackingInv ops t0 t h0 ht)⟩

/-- Witness of C20: two start/stop cycles and a third start on a new task of `ana`. -/
theorem at_most_one_open_session_witness :
    ∃ t, runAll [Op.startTimeTracking "ana" 10, Op.stopTimeTracking "ana" 40,
        Op.startTimeTracking "ana" 60, Op.startTimeTracking "ana" 70,
        Op.stopTimeTracking "ana" 90, Op.startTimeTracking "ana" 100]
        (some (newTask "ana" [])) = some t ∧
      openSessions t.timeTracking.sessions ≤ 1 :=
  at_most_one_open_session (newTask "ana" []) rfl rfl _


/-- C23: when the task exists and the caller is not its `assignedTo` user, each of the five
requests answers 403 and leaves the stored task as it was, whatever the other arguments and
the state of the task are (a progress argument being inside [0,100]). -/
theorem non_owner_forbidden_unchanged (task : Task) (userId subtaskId : String) (p now : Int)
    (estimatedHours : Option Rat) (subtaskEstimates : Option (List SubtaskEstimate))
    (hne : task.assignedTo ≠ userId) (h0 : 0 ≤ p) (h100 : p ≤ 100) :
    updateTaskProgress (some task) userId p now =
        ⟨.fail 403 "Not authorized to update this task", some task⟩ ∧
      updateSubtaskProgress (some task) userId subtaskId p now =
        ⟨.fail 403 "Not authorized to update this task", some task⟩ ∧
      startTimeTracking (some task) userId now =
        ⟨.fail 403 "Not authorized to track time for this task", some task⟩ ∧
      stopTimeTracking (some task) userId now =
        ⟨.fail 403 "Not authorized to track time for this task", some task⟩ ∧
      updateTimeEstimates (some task) userId estimatedHours subtaskEstimates now =
        ⟨.fail 403 "Not authorized to update this task", some task⟩ := by
  have hr : ¬ (p < 0 ∨ p > 100) := by omega
  refine ⟨?_, ?_, ?_, ?_, ?_⟩
  · simp only [updateTaskProgress, if_neg hr, if_pos hne]
  · simp only [updateSubtaskProgress, if_neg hr, if_pos hne]
  · simp only [startTimeTracking, if_pos hne]
  · simp only [stopTimeTracking, if_pos hne]
  · simp only [updateTimeEstimates, if_pos hne]

/-- Witness of C23: `bob` tries the five requests on the tracking task of `ana`. -/
theorem non_owner_forbidden_unchanged_witness :
    updateTaskProgress (some skewedTask) "bob" 50 9 =
        ⟨.fail 403 "Not authorized to update this task", some skewedTask⟩ ∧
      updateSubtaskProgress (some skewedTask) "bob" "s1" 50 9 =
        ⟨.fail 403 "Not authorized to update this task", some skewedTask⟩ ∧
      startTimeTracking (some skewedTask) "bob" 9 =
        ⟨.fail 403 "Not authorized to track time for this task", some skewedTask⟩ ∧
      stopTimeTracking (some skewedTask) "bob" 9 =
        ⟨.fail 403 "Not authorized to track time for this task", some skewedTask⟩ ∧
      updateTimeEstimates (some skewedTask) "bob" (some 2) none 9 =
        ⟨.fail 403 "Not authorized to update this task", some skewedTask⟩ :=
  non_owner_forbidden_unchanged skewedTask "bob" "s1" 50 9 (some 2) none (by decide)
    (by decide) (by decide)

/-- C24: `isOverdue` is false whenever `dueDate` is unset or the status is `completed`, and
otherwise it is `now > dueDate`; a task whose due date is past is overdue exactly when its
status is not `completed`. -/
theorem isOverdue_cases (t : Task) (now : Int) :
    (t.dueDate = none ∨ t.status = "completed" → isOverdue t now = false) ∧
      (∀ due, t.dueDate = some due → t.status ≠ "completed" →
        (isOverdue t now = true ↔ now > due)) ∧
      (∀ due, t.dueDate = some due → due < now →
        (isOverdue t now = true ↔ t.status ≠ "completed")) := by
  refine ⟨?_, ?_, ?_⟩
  · rintro (h | h)
    · simp [isOverdue, h]
    · unfold isOverdue
      cases t.dueDate <;> simp [h]
  · intro due hd hs
    simp [isOverdue, hd, hs]
  · intro due hd hlt
    by_cases hs : t.status = "completed"
    · simp [isOverdue, hd, hs]
    · simp [isOverdue, hd, hs, hlt]

/-- Witness of C24: the task due at 1000 seen at 2000, in progress and then completed. -/
theorem isOverdue_cases_witness :
    isOverdue dueTask 2000 = true ∧
      isOverdue { dueTask with status := "completed" } 2000 = false ∧
      isOverdue { dueTask with dueDate := none } 2000 = false :=
  ⟨((isOverdue_cases dueTask 2000).2.2 1000 rfl (by decide)).mpr (by decide),
    (isOverdue_cases { dueTask with status := "completed" } 2000).1 (Or.inr rfl),
    (isOverdue_cases { dueTask with dueDate := none } 2000).1 (Or.inl rfl)⟩

/-- C27: after every successful `setTaskProgress(p)` with `p` in [0,100], whatever the prior
status, the stored status is `todo` if and only if `p = 0`, and `p = 100` gives `completed`;
the converse of the latter fails: progress 50 on a completed task succeeds and the stored
status is `completed`. -/
theorem setTaskProgress_todo_iff_zero (task : Task) (userId : String) (p now : Int)
    (h0 : 0 ≤ p) (_h100 : p ≤ 100)
    (hok : (updateTaskProgress (some task) userId p now).response.isOk = true) :
    (∃ t, (updateTaskProgress (some task) userId p now).doc = some t ∧
        (t.status = "todo" ↔ p = 0) ∧ (p = 100 → t.status = "completed")) ∧
      (∃ t, updateTaskProgress (some doneTask) "ana" 50 9 =
          ⟨.ok "Progress updated successfully", some t⟩ ∧
        t.status = "completed" ∧ (50 : Int) ≠ 100) := by
  constructor
  · obtain ⟨t, hdoc, hsave, _, _, _⟩ := updateTaskProgress_ok task userId p now hok
    refine ⟨t, hdoc, ?_, ?_⟩
    · rw [save_status hsave, autoStatus_status _ _ h0]
      show (if p = 0 then "todo" else if p = 100 then "completed"
        else if task.status = "todo" then "in-progress" else task.status) = "todo" ↔ p = 0
      split_ifs with h1 h2 h3
      · simp [h1]
      · simp [h1]
      · simp [h1]
      · simp [h1, h3]
    · intro hp
      rw [save_status hsave, autoStatus_status _ _ h0]
      simp [hp]
  · exact ⟨{ doneTask with progress := 50 }, by decide, rfl, by decide⟩

/-- Witness of C27: progress 0 on the completed task of `ana`. -/
theorem setTaskProgress_todo_iff_zero_witness :
    (∃ t, (updateTaskProgress (some doneTask) "ana" 0 9).doc = some t ∧
        (t.status = "todo" ↔ (0 : Int) = 0) ∧ ((0 : Int) = 100 → t.status = "completed")) ∧
      (∃ t, updateTaskProgress (some doneTask) "ana" 50 9 =
          ⟨.ok "Progress updated successfully", some t⟩ ∧
        t.status = "completed" ∧ (50 : Int) ≠ 100) :=
  setTaskProgress_todo_iff_zero doneTask "ana" 0 9 (by decide) (by decide) (by decide)

/-- C28: for a task whose status is `todo` or `in-progress` and `0 < p ≤ 100`, after a
successful `setTaskProgress(p)` the `completionPercentage` of the stored task is `p`,
whatever its subtasks are. -/
theorem setTaskProgress_read_after_write (task : Task) (userId : String) (p now : Int)
    (hst : task.status = "todo" ∨ task.status = "in-progress") (h0 : 0 < p) (h100 : p ≤ 100)
    (hok : (updateTaskProgress (some task) userId p now).response.isOk = true) :
    ∃ t, (updateTaskProgress (some task) userId p now).doc = some t ∧
      completionPercentage t = p := by
  obtain ⟨t, hdoc, hsave, _, _, _⟩ := updateTaskProgress_ok task userId p now hok
  refine ⟨t, hdoc, ?_⟩
  have hprog : t.progress = p := by rw [save_progress hsave, autoStatus_progress]
  have hstat : t.status = (if p = 0 then "todo" else if p = 100 then "completed"
      else if task.status = "todo" then "in-progress" else task.status) := by
    rw [save_status hsave, autoStatus_status _ _ (le_of_lt h0)]
  have hp0 : p ≠ 0 := by omega
  rw [if_neg hp0] at hstat
  unfold completionPercentage
  by_cases hp : p = 100
  · rw [if_pos hp] at hstat
    rw [if_pos hstat, hp]
  · rw [if_neg hp] at hstat
    have hne : t.status ≠ "completed" := by
      rw [hstat]
      rcases hst with h | h
      · rw [if_pos h]; decide
      · rw [h]; decide
    rw [if_neg hne, hprog, if_pos h0]

/-- Witness of C28: progress 70 on the example task, which has subtasks. -/
theorem setTaskProgress_read_after_write_witness :
    ∃ t, (updateTaskProgress (some priorityTask) "ana" 70 9).doc = some t ∧
      completionPercentage t = 70 :=
  setTaskProgress_read_after_write priorityTask "ana" 70 9 (Or.inr rfl) (by decide)
    (by decide) (by decide)

/-- C29: when the manual progress and every subtask's progress lie in [0,100],
`completionPercentage` lies in [0,100], for any status and any number of subtasks. -/
theorem completionPercentage_bounds (t : Task) (hp0 : 0 ≤ t.progress) (hp100 : t.progress ≤ 100)
    (hsub : ∀ s ∈ t.subtasks, 0 ≤ s.progress ∧ s.progress ≤ 100) :
    0 ≤ completionPercentage t ∧ completionPercentage t ≤ 100 := by
  unfold completionPercentage
  split_ifs with h1 h2 h3 h4 h5
  · exact ⟨by decide, le_refl _⟩
  · exact ⟨hp0, hp100⟩
  · simp only [foldl_subtaskProgressStep, zero_add]
    obtain ⟨hs0, hs100⟩ := sum_subtaskContribution_bounds t.subtasks hsub
    have hlen : (0 : Rat) < (t.subtasks.length : Rat) := by exact_mod_cast h3
    apply mathRound_bounds
    · have : (0 : Rat) ≤ (((t.subtasks.map subtaskContribution).sum : Int) : Rat) := by
        exact_mod_cast hs0
      positivity
    · rw [div_le_iff₀ hlen]
      have : (((t.subtasks.map subtaskContribution).sum : Int) : Rat) ≤
          100 * (t.subtasks.length : Rat) := by exact_mod_cast hs100
      exact this
  · exact ⟨le_refl _, by decide⟩
  · exact ⟨by decide, by decide⟩
  · exact ⟨le_refl _, by decide⟩

/-- Witness of C29: the example task without manual progress, whose subtasks give 75. -/
theorem completionPercentage_bounds_witness :
    0 ≤ completionPercentage { priorityTask with progress := 0 } ∧
      completionPercentage { priorityTask with progress := 0 } ≤ 100 :=
  completionPercentage_bounds { priorityTask with progress := 0 } (by decide) (by decide)
    (by decide)


/-- C21, counterexample: the entry for `s1` is valid and names an existing subtask, but the
entry for `s2` carries a negative estimate: `save()` throws, and the estimate of `s1` is not
set either. -/
theorem updateTimeEstimates_negative_entry_rejects_batch :
    updateTimeEstimates (some priorityTask) "ana" none (some [⟨"s1", 3⟩, ⟨"s2", -1⟩]) 9 =
      ⟨.validationError, some priorityTask⟩ := by
  decide

/-- C21, amended: `updateTimeEstimates` is best-effort over missing subtask ids. For the
owner and any list of entries the request succeeds when the stored task passes the
validators and the estimates given to existing subtasks (and to the task) are non-negative,
whatever the entries that name no subtask hold; after every successful call the subtasks are
the same ones in the same order, the subtask named by an entry has the estimate of the last
entry that names it, and a subtask named by no entry keeps its estimate. When the last entry
that names an existing subtask carries a negative estimate, `save()` throws and nothing is
stored. -/
theorem updateTimeEstimates_best_effort (task : Task) (userId : String) (eh : Option Rat)
    (es : List SubtaskEstimate) (now : Int) (hown : task.assignedTo = userId) :
    (validate task = true → (∀ h, eh = some h → 0 ≤ h) →
        (∀ e ∈ es, (subtaskById task.subtasks e.subtaskId).isSome = true →
          0 ≤ e.estimatedHours) →
        (updateTimeEstimates (some task) userId eh (some es) now).response.isOk = true) ∧
      ((updateTimeEstimates (some task) userId eh (some es) now).response.isOk = true →
        ∃ t, (updateTimeEstimates (some task) userId eh (some es) now).doc = some t ∧
          t.subtasks.map (fun x => x._id) = task.subtasks.map (fun x => x._id) ∧
          (∀ before e after s, es = before ++ e :: after →
            (∀ x ∈ after, x.subtaskId ≠ e.subtaskId) →
            subtaskById task.subtasks e.subtaskId = some s →
            ∃ u, subtaskById t.subtasks e.subtaskId = some u ∧
              u.estimatedHours = e.estimatedHours) ∧
          (∀ pre s post, task.subtasks = pre ++ s :: post →
            (∀ e ∈ es, e.subtaskId ≠ s._id) →
            ∃ pre2 u post2, t.subtasks = pre2 ++ u :: post2 ∧ pre2.length = pre.length ∧
              u._id = s._id ∧ u.estimatedHours = s.estimatedHours)) ∧
      (∀ before e after s, es = before ++ e :: after →
        (∀ x ∈ after, x.subtaskId ≠ e.subtaskId) →
        subtaskById task.subtasks e.subtaskId = some s → e.estimatedHours < 0 →
        updateTimeEstimates (some task) userId eh (some es) now =
          ⟨.validationError, some task⟩) := by
  subst hown
  refine ⟨?_, ?_, ?_⟩
  · intro hv heh hes
    apply updateTimeEstimates_succeeds task eh (some es) now hv heh
    intro l hl
    cases hl
    exact hes
  rotate_left
  · intro before e after s hes hafter hfind hneg
    obtain ⟨pre, post, hsplit, hpre, hs⟩ := subtaskById_some hfind
    have hpre1 : ∀ x ∈ pre, x._id ≠ s._id := by rw [hs]; exact hpre
    obtain ⟨pre2, post2, h, hfold, _, hlast, _⟩ :=
      foldl_applyEstimate_named es pre post s hpre1
    have hh : h = e.estimatedHours :=
      hlast before e after hes hs.symm (by rw [hs]; exact hafter)
    rw [updateTimeEstimates_owner]
    have hv : validate
        { task with
          estimatedHours := eh.getD task.estimatedHours
          subtasks := estimatedSubtasks task.subtasks (some es) } = false := by
      have hnot : ¬ (0 ≤ e.estimatedHours) := not_le.mpr hneg
      simp only [estimatedSubtasks, hsplit, hfold, hh]
      simp [validate, validSubtask, hnot]
    simp only [save, hv]
    rfl
  · intro hok
    obtain ⟨t, hdoc, hsave⟩ := updateTimeEstimates_saved task eh (some es) now hok
    obtain ⟨g, hg1, _, hsub⟩ := save_subtasks_map hsave
    have hsub2 : t.subtasks = (es.foldl applyEstimate task.subtasks).map g := hsub
    refine ⟨t, hdoc, ?_, ?_, ?_⟩
    · rw [hsub2, List.map_map, ← foldl_applyEstimate_ids es task.subtasks]
      apply List.map_congr_left
      intro x _
      exact (hg1 x).1
    · intro before e after s hes hafter hfind
      obtain ⟨pre, post, hsplit, hpre, hs⟩ := subtaskById_some hfind
      have hpre1 : ∀ x ∈ pre, x._id ≠ s._id := by rw [hs]; exact hpre
      obtain ⟨pre2, post2, h, hfold, hid, hlast, _⟩ :=
        foldl_applyEstimate_named es pre post s hpre1
      have hh : h = e.estimatedHours :=
        hlast before e after hes hs.symm (by rw [hs]; exact hafter)
      refine ⟨g { s with estimatedHours := h }, ?_, ?_⟩
      · have hsplit2 : t.subtasks =
            pre2.map g ++ g { s with estimatedHours := h } :: post2.map g := by
          rw [hsub2, hsplit, hfold, List.map_append, List.map_cons]
        refine subtaskById_split hsplit2 ?_ ?_
        · intro x hx
          obtain ⟨y, hy, rfl⟩ := List.mem_map.mp hx
          rw [(hg1 y).1]
          have hmem : y._id ∈ pre2.map (fun x => x._id) := List.mem_map_of_mem _ hy
          rw [hid] at hmem
          obtain ⟨z, hz, hzy⟩ := List.mem_map.mp hmem
          rw [← hzy]
          exact hpre z hz
        · rw [(hg1 _).1]
          exact hs
      · rw [(hg1 _).2.2.2.1]
        exact hh
    · intro pre s post hsplit hes
      obtain ⟨pre2, post2, hfold, hid⟩ := foldl_applyEstimate_unnamed es pre post s hes
      refine ⟨pre2.map g, g s, post2.map g, ?_, ?_, (hg1 s).1, (hg1 s).2.2.2.1⟩
      · rw [hsub2, hsplit, hfold, List.map_append, List.map_cons]
      · have := congrArg List.length hid
        simpa using this

/-- Witness of C21 (amended): one entry names subtask `s2` of the example task and one
names no subtask (and carries a negative estimate). -/
theorem updateTimeEstimates_best_effort_witness :
    (updateTimeEstimates (some priorityTask) "ana" none
        (some [⟨"s2", 3⟩, ⟨"s9", -1⟩]) 9).response.isOk = true ∧
      ∃ u, subtaskById
          (((updateTimeEstimates (some priorityTask) "ana" none
            (some [⟨"s2", 3⟩, ⟨"s9", -1⟩]) 9).doc.map (fun t => t.subtasks)).getD [])
          "s2" = some u ∧ u.estimatedHours = 3 :=
  have h := updateTimeEstimates_best_effort priorityTask "ana" none
    [⟨"s2", 3⟩, ⟨"s9", -1⟩] 9 rfl
  have hok := h.1 (by decide) (fun _ hh => by cases hh) (by decide)
  ⟨hok, by
    obtain ⟨t, hdoc, _, hnamed, _⟩ := h.2.1 hok
    rw [hdoc]
    exact hnamed [] ⟨"s2", 3⟩ [⟨"s9", -1⟩]
      { _id := "s2", completed := false, completedAt := none, progress := 50,
        estimatedHours := 0, actualHours := 0 } rfl (by decide) (by decide)⟩

/-- C22: for the owner, a negative task-level `estimatedHours` is rejected by the `min: 0`
validator when the document is saved and the stored task is left as it was; a non-negative
one is accepted (on a task that passes the validators, with non-negative estimates for the
existing subtasks named) and every accepted one is stored as the task-level estimate; when
`estimatedHours` is absent the stored task-level estimate is unchanged. -/
theorem updateTimeEstimates_task_estimate (task : Task) (userId : String)
    (es : Option (List SubtaskEstimate)) (now : Int) (hown : task.assignedTo = userId) :
    (∀ h : Rat, h < 0 →
        updateTimeEstimates (some task) userId (some h) es now =
          ⟨.validationError, some task⟩) ∧
      (∀ h : Rat, 0 ≤ h → validate task = true →
        (∀ l, es = some l → ∀ e ∈ l,
          (subtaskById task.subtasks e.subtaskId).isSome = true → 0 ≤ e.estimatedHours) →
        (updateTimeEstimates (some task) userId (some h) es now).response.isOk = true) ∧
      (∀ h : Rat,
        (updateTimeEstimates (some task) userId (some h) es now).response.isOk = true →
        ∃ t, (updateTimeEstimates (some task) userId (some h) es now).doc = some t ∧
          t.estimatedHours = h) ∧
      (∀ t, (updateTimeEstimates (some task) userId none es now).doc = some t →
        t.estimatedHours = task.estimatedHours) := by
  subst hown
  refine ⟨?_, ?_, ?_, ?_⟩
  · intro h hneg
    rw [updateTimeEstimates_owner]
    have hv : validate
        { task with
          estimatedHours := (some h).getD task.estimatedHours
          subtasks := estimatedSubtasks task.subtasks es } = false := by
      have hnot : ¬ (0 ≤ h) := not_le.mpr hneg
      simp [validate, hnot]
    simp only [save, hv]
    rfl
  · intro h h0 hv hes
    exact updateTimeEstimates_succeeds task (some h) es now hv
      (fun x hx => by cases hx; exact h0) hes
  · intro h hok
    obtain ⟨t, hdoc, hsave⟩ := updateTimeEstimates_saved task (some h) es now hok
    exact ⟨t, hdoc, by rw [save_estimatedHours hsave]; rfl⟩
  · intro t ht
    rw [updateTimeEstimates_owner] at ht
    split at ht
    · rename_i saved hs
      cases ht
      rw [save_estimatedHours hs]
      rfl
    · cases ht
      rfl

/-- Witness of C22: minus two hours is rejected and two hours are stored on a new task. -/
theorem updateTimeEstimates_task_estimate_witness :
    updateTimeEstimates (some (newTask "ana" [])) "ana" (some (-2)) none 9 =
        ⟨.validationError, some (newTask "ana" [])⟩ ∧
      (updateTimeEstimates (some (newTask "ana" [])) "ana" (some 2) none 9).response.isOk
        = true ∧
      ∃ t, (updateTimeEstimates (some (newTask "ana" [])) "ana" (some 2) none 9).doc = some t ∧
        t.estimatedHours = 2 :=
  have h := updateTimeEstimates_task_estimate (newTask "ana" []) "ana" none 9 rfl
  have hok := h.2.1 2 (by decide) (newTask_valid "ana") (fun _ hl => by cases hl)
  ⟨h.1 (-2) (by decide), hok, h.2.2.1 2 hok⟩


/-- C30: `generateTaskRecommendations` never drops the overdue recommendation: for every
hour, weekday and task list at most three recommendations are produced before the final
`slice(0, 3)`, so the slice returns them all, the result has at most 3 entries, and it
contains "Address Overdue Tasks" whenever some task is overdue and not completed. -/
theorem generateTaskRecommendations_keeps_overdue (userTasks : List Task)
    (dayOfWeek : String) (hour : Nat) (now : Int) :
    (recommendationsBeforeSlice userTasks dayOfWeek hour now).length ≤ 3 ∧
      generateTaskRecommendations userTasks dayOfWeek hour now =
        recommendationsBeforeSlice userTasks dayOfWeek hour now ∧
      (generateTaskRecommendations userTasks dayOfWeek hour now).length ≤ 3 ∧
      ((∃ t ∈ userTasks, isOverdue t now = true ∧ t.status ≠ "completed") →
        ∃ r ∈ generateTaskRecommendations userTasks dayOfWeek hour now,
          r.title = "Address Overdue Tasks") := by
  have hlen := recommendationsBeforeSlice_length userTasks dayOfWeek hour now
  have heq : generateTaskRecommendations userTasks dayOfWeek hour now =
      recommendationsBeforeSlice userTasks dayOfWeek hour now := by
    unfold generateTaskRecommendations
    exact List.take_of_length_le hlen
  refine ⟨hlen, heq, by rw [heq]; exact hlen, ?_⟩
  intro h
  rw [heq]
  exact recommendationsBeforeSlice_overdue userTasks dayOfWeek hour now h

/-- Witness of C30: a Saturday at 9 with one overdue task gives the three recommendations
of the morning, the weekend and the overdue tasks. -/
theorem generateTaskRecommendations_keeps_overdue_witness :
    (generateTaskRecommendations [dueTask] "Saturday" 9 2000).map (fun r => r.title) =
        ["Daily Planning Session", "Weekly Review", "Address Overdue Tasks"] ∧
      ∃ r ∈ generateTaskRecommendations [dueTask] "Saturday" 9 2000,
        r.title = "Address Overdue Tasks" :=
  ⟨by decide,
    (generateTaskRecommendations_keeps_overdue [dueTask] "Saturday" 9 2000).2.2.2
      ⟨dueTask, List.mem_singleton_self _, by decide, by decide⟩⟩


/-- C25: `estimateTimeRequired` rounds to the nearest 0.25: for every title and description
the result is a positive multiple of 0.25 and differs by at most 0.125 from the unrounded
estimate, the largest of 1 and the hours of the time keywords contained in the lower-cased
text, times 1.5 when the description has more than 50 space-separated words, 0.7 when it has
fewer than 10, and 1 otherwise. -/
theorem estimateTimeRequired_nearest_quarter (toLowerCase : String → String)
    (title description : String) :
    (∃ k : Int, 0 < k ∧
        estimateTimeRequired toLowerCase title description = (k : Rat) / 4) ∧
      |estimateTimeRequired toLowerCase title description -
          unroundedEstimate toLowerCase title description| ≤ 1 / 8 ∧
      estimateTimeRequired toLowerCase title description =
        ((mathRound (unroundedEstimate toLowerCase title description * 4) : Int) : Rat) / 4 := by
  have heq := estimateTimeRequired_eq toLowerCase title description
  have hge := unroundedEstimate_ge toLowerCase title description
  have hlo := lt_mathRound (unroundedEstimate toLowerCase title description * 4)
  have hhi := mathRound_le (unroundedEstimate toLowerCase title description * 4)
  refine ⟨⟨mathRound (unroundedEstimate toLowerCase title description * 4), ?_, heq⟩, ?_, heq⟩
  · have hpos : (0 : Rat) <
        ((mathRound (unroundedEstimate toLowerCase title description * 4) : Int) : Rat) := by
      linarith
    exact_mod_cast hpos
  · rw [heq, abs_le]
    constructor <;> linarith


/-- C26: for every date, `workingHours` and list of pending tasks, the first entry of the
schedule starts at 9:00, every entry ends at or before 9:00 + `workingHours`, each entry is
for a listed task and its `duration` is (`estimatedHours`, or 1 when that is 0) * 60, its
`endTime` being the instant of `new Date(start + duration * 60000)`, products and sum being
the ones of JavaScript numbers; each entry after the first starts exactly 15 minutes after
the previous one's end, hence after it. When adding a duration got from a non-negative
estimate never gives an earlier instant, as with doubles, non-negative estimates make no
entry end before it starts and every entry end before each later one starts, so no two
overlap. -/
theorem generateSmartSchedule_layout {F : Type} (ops : NumberOps F)
    (nineAM workingHours : Int) (sortedTasks : List Task) :
    (∀ e, (generateSmartSchedule ops nineAM workingHours sortedTasks).head? = some e →
        e.startTime = nineAM) ∧
      (∀ e ∈ generateSmartSchedule ops nineAM workingHours sortedTasks,
        e.endTime ≤ nineAM + workingHours * 3600000) ∧
      (∀ e ∈ generateSmartSchedule ops nineAM workingHours sortedTasks, ∃ task ∈ sortedTasks,
        e.estimatedHours = (if task.estimatedHours = 0 then 1 else task.estimatedHours) ∧
        e.duration = ops.mul (ops.ofRat e.estimatedHours) (ops.ofRat 60) ∧
        ops.timeClip (ops.add (ops.ofRat e.startTime) (ops.mul e.duration (ops.ofRat 60000)))
          = some e.endTime) ∧
      List.Chain'
        (fun a b : ScheduleEntry F =>
          b.startTime = a.endTime + 15 * 60000 ∧ a.endTime < b.startTime)
        (generateSmartSchedule ops nineAM workingHours sortedTasks) ∧
      ((∀ (c : Int) (x : Rat) (ms : Int), 0 ≤ x →
          ops.timeClip (ops.add (ops.ofRat c)
            (ops.mul (ops.mul (ops.ofRat x) (ops.ofRat 60)) (ops.ofRat 60000))) = some ms →
          c ≤ ms) →
        (∀ task ∈ sortedTasks, 0 ≤ task.estimatedHours) →
        (∀ e ∈ generateSmartSchedule ops nineAM workingHours sortedTasks,
          e.startTime ≤ e.endTime) ∧
        List.Pairwise (fun a b : ScheduleEntry F => a.endTime < b.startTime)
          (generateSmartSchedule ops nineAM workingHours sortedTasks)) := by
  simp only [generateSmartSchedule]
  obtain ⟨hhead, hend, hdur, hchain⟩ :=
    scheduleLoop_layout ops (nineAM + workingHours * 3600000) sortedTasks nineAM
  refine ⟨hhead, hend, hdur, ?_, ?_⟩
  · refine List.Chain'.imp ?_ hchain
    intro a b hab
    exact ⟨hab, by omega⟩
  · intro hops hest
    have hfwd := scheduleLoop_forward ops (nineAM + workingHours * 3600000) sortedTasks
      nineAM hops hest
    exact ⟨hfwd,
      (scheduleLoop_startTime ops (nineAM + workingHours * 3600000) sortedTasks
        nineAM hfwd).2⟩

/-- Witness of C26: eight working hours from 9:00 (instant 32,400,000) for four pending
tasks, whose estimates 2, 0, 6 and 1/2 make every product and sum exact; the six-hour task
does not fit and is passed over. -/
theorem generateSmartSchedule_layout_witness :
    generateSmartSchedule exactNumbers 32400000 8 pendingTasks =
        [⟨2, 32400000, 39600000, 120⟩, ⟨1, 40500000, 44100000, 60⟩,
         ⟨1 / 2, 45000000, 46800000, 30⟩] ∧
      (∀ e ∈ generateSmartSchedule exactNumbers 32400000 8 pendingTasks,
        e.startTime ≤ e.endTime) ∧
      List.Pairwise (fun a b : ScheduleEntry Rat => a.endTime < b.startTime)
        (generateSmartSchedule exactNumbers 32400000 8 pendingTasks) :=
  ⟨by
      simp [generateSmartSchedule, scheduleLoop, exactNumbers, pendingTasks, newTask, orOne,
        timeClip]
      norm_num [Int.floor_eq_iff],
    (generateSmartSchedule_layout exactNumbers 32400000 8 pendingTasks).2.2.2.2
      (by
        intro c x ms hx h
        simp only [exactNumbers, Option.some.injEq] at h
        rw [← h]
        exact le_timeClip c (x * 60 * 60000) (by positivity))
      (by
        intro task ht
        simp only [pendingTasks, newTask, List.mem_cons, List.mem_singleton,
          List.not_mem_nil, or_false] at ht
        rcases ht with rfl | rfl | rfl | rfl <;> norm_num)⟩

end TaskManager
